import Mathlib

/-
Verification of the tthoma.py trace analyzer (util/tthoma.py).

This file is a shallow embedding of the analyzer's core data structures and
algorithms:
  * the per-RPC reconstruction state (class AnalyzeRpc and the global rpcs
    table) as an association list from RPC id to a record;
  * the dispatcher's pattern matching loop (class Dispatcher);
  * the sweep-line accumulator (AnalyzeActivity.sum_list);
  * the copy-throughput state machine (AnalyzeCopy);
  * the network correlation pairing (AnalyzeNet.collect_events and
    summarize_events);
  * the timeline phase aggregation (AnalyzeTimeline).

Conventions used throughout:
  * Python floats (trace timestamps, elapsed times) are modeled as rationals;
    all the arithmetic relevant here (sums, differences, divisions of small
    decimal values) is exact in both models.
  * Python dicts are association lists; assignment d[k] = v replaces the value
    in place when the key exists and appends a new binding otherwise, matching
    dict insertion-order semantics.
  * Code that can raise (IndexError on an empty list, ZeroDivisionError,
    TypeError on tuple arithmetic) is modeled with Option/Except, with none /
    error standing for the raised exception.
  * Python's sorted(...) (a stable sort by a key) is modeled by a stable
    insertion sort, which computes the same permutation.
-/

/-- Lookup in an association list (Python d[k] read / k in d). -/
def lookupA {α β : Type} [DecidableEq α] : List (α × β) → α → Option β
  | [], _ => none
  | (k0, v0) :: rest, k => if k0 = k then some v0 else lookupA rest k

/-- Assignment d[k] = v: replace in place if present, else append. -/
def updateA {α β : Type} [DecidableEq α] : List (α × β) → α → β → List (α × β)
  | [], k, v => [(k, v)]
  | (k0, v0) :: rest, k, v =>
    if k0 = k then (k0, v) :: rest else (k0, v0) :: updateA rest k v

/-- Deletion del d[k]: removes the first binding of k. -/
def removeA {α β : Type} [DecidableEq α] : List (α × β) → α → List (α × β)
  | [], _ => []
  | (k0, v0) :: rest, k => if k0 = k then rest else (k0, v0) :: removeA rest k

/-- The keys of an association list. -/
def keysOf {α β : Type} : List (α × β) → List α :=
  List.map Prod.fst

theorem lookupA_updateA_self {α β : Type} [DecidableEq α]
    (m : List (α × β)) (k : α) (v : β) : lookupA (updateA m k v) k = some v := by
  induction m with
  | nil => simp [updateA, lookupA]
  | cons hd tl ih =>
    by_cases h : hd.1 = k
    · simp [updateA, lookupA, h]
    · simp [updateA, lookupA, h, ih]

theorem lookupA_updateA_ne {α β : Type} [DecidableEq α]
    (m : List (α × β)) (k k' : α) (v : β) (h : k' ≠ k) :
    lookupA (updateA m k v) k' = lookupA m k' := by
  induction m with
  | nil => simp [updateA, lookupA, Ne.symm h]
  | cons hd tl ih =>
    by_cases h1 : hd.1 = k
    · subst h1
      simp [updateA, lookupA, Ne.symm h]
    · simp [updateA, lookupA, h1, ih]

/-- Stable insertion of one element, keeping existing elements with
le b a = true in front (so ties preserve original order). -/
def insertLe {α : Type} (le : α → α → Bool) (a : α) : List α → List α
  | [] => [a]
  | b :: rest => if le b a then b :: insertLe le a rest else a :: b :: rest

/-- Stable sort modeling Python sorted(list, key=...): le compares keys. -/
def sortByLe {α : Type} (le : α → α → Bool) : List α → List α
  | [] => []
  | a :: rest => insertLe le a (sortByLe le rest)

theorem mem_insertLe {α : Type} (le : α → α → Bool) (a x : α) (l : List α) :
    x ∈ insertLe le a l ↔ x = a ∨ x ∈ l := by
  induction l with
  | nil => simp [insertLe]
  | cons b rest ih =>
    by_cases h : le b a
    · rw [insertLe, if_pos h, List.mem_cons, ih, List.mem_cons]
      tauto
    · rw [insertLe, if_neg h, List.mem_cons, List.mem_cons]

theorem mem_sortByLe {α : Type} (le : α → α → Bool) (x : α) (l : List α) :
    x ∈ sortByLe le l ↔ x ∈ l := by
  induction l with
  | nil => simp [sortByLe]
  | cons a rest ih =>
    simp [sortByLe, mem_insertLe, ih]

/-
The RPC reconstruction model (class AnalyzeRpc and the global rpcs table).
Field names follow the keys used in the source. Scalar fields that may be
absent from the Python dict are Options; list/dict fields are initialized
by new_rpc and therefore always present.
-/

/-- One record of the global rpcs table (see new_rpc and the tt handlers of
AnalyzeRpc in tthoma.py). -/
structure Rpc where
  name : String
  peer : Option String := none
  gro_core : Option ℕ := none
  in_length : Option ℤ := none
  out_length : Option ℤ := none
  sendmsg : Option ℚ := none
  recvmsg_done : Option ℚ := none
  copy_out_start : Option ℚ := none
  copy_out_done : Option ℚ := none
  copy_in_done : Option ℚ := none
  gro_data : List (ℚ × ℤ) := []
  gro_grant : List (ℚ × ℤ) := []
  softirq_data : List (ℚ × ℤ) := []
  softirq_grant : List (ℚ × ℤ) := []
  send_data : List (ℚ × ℤ × ℤ) := []
  send_grant : List (ℚ × ℤ × ℤ) := []
  ip_xmits : List (ℤ × ℚ) := []
  resends : List (ℤ × ℚ) := []
  retransmits : List (ℤ × (ℚ × ℤ)) := []
deriving DecidableEq

/-- AnalyzeRpc.new_rpc: the bare record created for a newly seen id. -/
def new_rpc (name : String) : Rpc := { name := name }

/-- The events handled by AnalyzeRpc: one constructor per tt_ method of the
class (every one of them carries an RPC identifier). -/
inductive RpcEvent where
  | gro_data (time : ℚ) (core : ℕ) (peer : String) (id : ℕ) (offset : ℤ)
  | gro_grant (time : ℚ) (core : ℕ) (peer : String) (id : ℕ) (offset : ℤ)
      (priority : ℤ)
  | ip_xmit (time : ℚ) (core : ℕ) (id : ℕ) (offset : ℤ)
  | resend (time : ℚ) (core : ℕ) (id : ℕ) (offset : ℤ)
  | retransmit (time : ℚ) (core : ℕ) (id : ℕ) (offset : ℤ) (length : ℤ)
  | softirq_data (time : ℚ) (core : ℕ) (id : ℕ) (offset : ℤ) (length : ℤ)
  | softirq_grant (time : ℚ) (core : ℕ) (id : ℕ) (offset : ℤ)
  | send_data (time : ℚ) (core : ℕ) (id : ℕ) (offset : ℤ) (length : ℤ)
  | send_grant (time : ℚ) (core : ℕ) (id : ℕ) (offset : ℤ) (priority : ℤ)
  | sendmsg_request (time : ℚ) (core : ℕ) (peer : String) (id : ℕ) (length : ℤ)
  | sendmsg_response (time : ℚ) (core : ℕ) (id : ℕ) (length : ℤ)
  | recvmsg_done (time : ℚ) (core : ℕ) (id : ℕ) (length : ℤ)
  | copy_out_start (time : ℚ) (core : ℕ) (id : ℕ)
  | copy_out_done (time : ℚ) (core : ℕ) (id : ℕ) (num_bytes : ℤ)
  | copy_in_done (time : ℚ) (core : ℕ) (id : ℕ) (num_bytes : ℤ)
deriving DecidableEq

/-- The RPC identifier carried by an event. -/
def RpcEvent.rid : RpcEvent → ℕ
  | .gro_data _ _ _ id _ => id
  | .gro_grant _ _ _ id _ _ => id
  | .ip_xmit _ _ id _ => id
  | .resend _ _ id _ => id
  | .retransmit _ _ id _ _ => id
  | .softirq_data _ _ id _ _ => id
  | .softirq_grant _ _ id _ => id
  | .send_data _ _ id _ _ => id
  | .send_grant _ _ id _ _ => id
  | .sendmsg_request _ _ _ id _ => id
  | .sendmsg_response _ _ id _ => id
  | .recvmsg_done _ _ id _ => id
  | .copy_out_start _ _ id => id
  | .copy_out_done _ _ id _ => id
  | .copy_in_done _ _ id _ => id

/-- Whether the event is a send_data (outgoing data queued) event. -/
def RpcEvent.isSendData : RpcEvent → Bool
  | .send_data _ _ _ _ _ => true
  | _ => false

/-- The global rpcs table: RPC id to record, in insertion order. -/
def RpcState : Type := List (ℕ × Rpc)

instance : DecidableEq RpcState := by
  unfold RpcState
  infer_instance

/-- The record for id, created bare if absent (the implicit-creation pattern
shared by AnalyzeRpc.append and the tt handlers). -/
def fetchRpc (tname : String) (s : RpcState) (id : ℕ) : Rpc :=
  (lookupA s id).getD (new_rpc tname)

/-- One step of AnalyzeRpc: the tt_ handler selected by the event, applied to
the rpcs table. Each branch is a direct transcription of the corresponding
method, with AnalyzeRpc.append (create if needed, then append to the named
list) inlined at its fixed field. -/
def rpcStep (tname : String) (s : RpcState) (e : RpcEvent) : RpcState :=
  match e with
  | .gro_data t c peer id off =>
    let r := fetchRpc tname s id
    updateA s id { r with gro_data := r.gro_data ++ [(t, off)],
                          peer := some peer, gro_core := some c }
  | .gro_grant t c _ id off _ =>
    let r := fetchRpc tname s id
    updateA s id { r with gro_grant := r.gro_grant ++ [(t, off)],
                          gro_core := some c }
  | .ip_xmit t _ id off =>
    let r := fetchRpc tname s id
    updateA s id { r with ip_xmits := updateA r.ip_xmits off t }
  | .resend t _ id off =>
    let r := fetchRpc tname s id
    updateA s id { r with resends := updateA r.resends off t }
  | .retransmit t _ id off len =>
    let r := fetchRpc tname s id
    updateA s id { r with retransmits := updateA r.retransmits off (t, len) }
  | .softirq_data t _ id off len =>
    let r := fetchRpc tname s id
    updateA s id { r with softirq_data := r.softirq_data ++ [(t, off)],
                          in_length := some len }
  | .softirq_grant t _ id off =>
    let r := fetchRpc tname s id
    updateA s id { r with softirq_grant := r.softirq_grant ++ [(t, off)] }
  | .send_data _ _ id off len =>
    match lookupA s id with
    | none => s
    | some r =>
      match lookupA r.ip_xmits off with
      | none => s
      | some xt =>
        updateA s id { r with send_data := r.send_data ++ [(xt, off, len)],
                              ip_xmits := removeA r.ip_xmits off }
  | .send_grant t _ id off prio =>
    let r := fetchRpc tname s id
    updateA s id { r with send_grant := r.send_grant ++ [(t, off, prio)] }
  | .sendmsg_request t _ peer id len =>
    let r := fetchRpc tname s id
    updateA s id { r with out_length := some len, peer := some peer,
                          sendmsg := some t }
  | .sendmsg_response t _ id len =>
    let r := fetchRpc tname s id
    updateA s id { r with sendmsg := some t, out_length := some len }
  | .recvmsg_done t _ id _ =>
    let r := fetchRpc tname s id
    updateA s id { r with recvmsg_done := some t }
  | .copy_out_start t _ id =>
    let r := fetchRpc tname s id
    updateA s id
      { r with copy_out_start :=
          match r.copy_out_start with
          | none => some t
          | some old => some old }
  | .copy_out_done t _ id _ =>
    let r := fetchRpc tname s id
    updateA s id { r with copy_out_done := some t }
  | .copy_in_done t _ id _ =>
    let r := fetchRpc tname s id
    updateA s id { r with copy_in_done := some t }

/-- Processing a sequence of events, in order. -/
def rpcRun (tname : String) (s : RpcState) (es : List RpcEvent) : RpcState :=
  es.foldl (rpcStep tname) s

theorem lookupA_updateA_isSome {α β : Type} [DecidableEq α]
    (m : List (α × β)) (k k' : α) (v : β) (h : (lookupA m k').isSome) :
    (lookupA (updateA m k v) k').isSome := by
  by_cases hk : k' = k
  · subst hk
    simp [lookupA_updateA_self]
  · rw [lookupA_updateA_ne m k k' v hk]
    exact h

/-
Monotonicity of the reconstruction model (for claim C6). RpcMono r r' says
that r' retains everything r had, in the sense of the spec's monotonic-merge
property: every top-level field that was present is still present, every
list field has only been appended to, and the resend/retransmit maps only
gain or overwrite entries (keys are never removed). The ip_xmits map is
deliberately absent here: its entries are consumed (deleted) by a matching
send_data event. -/
structure RpcMono (r r' : Rpc) : Prop where
  name_eq : r'.name = r.name
  peer_mono : r.peer.isSome → r'.peer.isSome
  gro_core_mono : r.gro_core.isSome → r'.gro_core.isSome
  in_length_mono : r.in_length.isSome → r'.in_length.isSome
  out_length_mono : r.out_length.isSome → r'.out_length.isSome
  sendmsg_mono : r.sendmsg.isSome → r'.sendmsg.isSome
  recvmsg_done_mono : r.recvmsg_done.isSome → r'.recvmsg_done.isSome
  copy_out_start_mono : r.copy_out_start.isSome → r'.copy_out_start.isSome
  copy_out_done_mono : r.copy_out_done.isSome → r'.copy_out_done.isSome
  copy_in_done_mono : r.copy_in_done.isSome → r'.copy_in_done.isSome
  gro_data_ext : ∃ t, r'.gro_data = r.gro_data ++ t
  gro_grant_ext : ∃ t, r'.gro_grant = r.gro_grant ++ t
  softirq_data_ext : ∃ t, r'.softirq_data = r.softirq_data ++ t
  softirq_grant_ext : ∃ t, r'.softirq_grant = r.softirq_grant ++ t
  send_data_ext : ∃ t, r'.send_data = r.send_data ++ t
  send_grant_ext : ∃ t, r'.send_grant = r.send_grant ++ t
  resends_mono : ∀ k, (lookupA r.resends k).isSome → (lookupA r'.resends k).isSome
  retransmits_mono :
    ∀ k, (lookupA r.retransmits k).isSome → (lookupA r'.retransmits k).isSome

theorem RpcMono.refl (r : Rpc) : RpcMono r r := by
  constructor <;> first
    | rfl
    | exact fun h => h
    | exact ⟨[], by simp⟩
    | exact fun k h => h

theorem RpcMono.trans {a b c : Rpc} (h1 : RpcMono a b) (h2 : RpcMono b c) :
    RpcMono a c := by
  constructor
  · exact h2.name_eq.trans h1.name_eq
  · exact fun h => h2.peer_mono (h1.peer_mono h)
  · exact fun h => h2.gro_core_mono (h1.gro_core_mono h)
  · exact fun h => h2.in_length_mono (h1.in_length_mono h)
  · exact fun h => h2.out_length_mono (h1.out_length_mono h)
  · exact fun h => h2.sendmsg_mono (h1.sendmsg_mono h)
  · exact fun h => h2.recvmsg_done_mono (h1.recvmsg_done_mono h)
  · exact fun h => h2.copy_out_start_mono (h1.copy_out_start_mono h)
  · exact fun h => h2.copy_out_done_mono (h1.copy_out_done_mono h)
  · exact fun h => h2.copy_in_done_mono (h1.copy_in_done_mono h)
  · obtain ⟨t1, e1⟩ := h1.gro_data_ext
    obtain ⟨t2, e2⟩ := h2.gro_data_ext
    exact ⟨t1 ++ t2, by rw [e2, e1, List.append_assoc]⟩
  · obtain ⟨t1, e1⟩ := h1.gro_grant_ext
    obtain ⟨t2, e2⟩ := h2.gro_grant_ext
    exact ⟨t1 ++ t2, by rw [e2, e1, List.append_assoc]⟩
  · obtain ⟨t1, e1⟩ := h1.softirq_data_ext
    obtain ⟨t2, e2⟩ := h2.softirq_data_ext
    exact ⟨t1 ++ t2, by rw [e2, e1, List.append_assoc]⟩
  · obtain ⟨t1, e1⟩ := h1.softirq_grant_ext
    obtain ⟨t2, e2⟩ := h2.softirq_grant_ext
    exact ⟨t1 ++ t2, by rw [e2, e1, List.append_assoc]⟩
  · obtain ⟨t1, e1⟩ := h1.send_data_ext
    obtain ⟨t2, e2⟩ := h2.send_data_ext
    exact ⟨t1 ++ t2, by rw [e2, e1, List.append_assoc]⟩
  · obtain ⟨t1, e1⟩ := h1.send_grant_ext
    obtain ⟨t2, e2⟩ := h2.send_grant_ext
    exact ⟨t1 ++ t2, by rw [e2, e1, List.append_assoc]⟩
  · exact fun k h => h2.resends_mono k (h1.resends_mono k h)
  · exact fun k h => h2.retransmits_mono k (h1.retransmits_mono k h)

/-- Every step of the reconstruction either leaves the table unchanged or
updates exactly the record of the event's own id, and the updated record
retains everything the old one had (in the RpcMono sense). -/
theorem rpcStep_cases (tname : String) (s : RpcState) (e : RpcEvent) :
    rpcStep tname s e = s ∨
    ∃ v, rpcStep tname s e = updateA s e.rid v ∧
      ∀ r, lookupA s e.rid = some r → RpcMono r v := by
  cases e
  case send_data t c id off len =>
    cases h : lookupA s id with
    | none =>
      left
      simp only [rpcStep, RpcEvent.rid, h]
    | some r0 =>
      cases h2 : lookupA r0.ip_xmits off with
      | none =>
        left
        simp only [rpcStep, RpcEvent.rid, h, h2]
      | some xt =>
        right
        refine ⟨{ r0 with send_data := r0.send_data ++ [(xt, off, len)],
                          ip_xmits := removeA r0.ip_xmits off }, ?_, ?_⟩
        · simp only [rpcStep, RpcEvent.rid, h, h2]
        · intro r hr
          simp only [RpcEvent.rid] at hr
          rw [h] at hr
          cases hr
          constructor <;> first
            | rfl
            | exact fun h => h
            | exact fun k h => h
            | exact ⟨_, rfl⟩
            | exact ⟨[], (List.append_nil _).symm⟩
  all_goals
    refine Or.inr ⟨_, rfl, ?_⟩
    intro r hr
    simp only [RpcEvent.rid] at hr
    simp only [fetchRpc, hr, Option.getD_some]
    constructor <;> first
      | rfl
      | exact fun h => h
      | exact fun k h => h
      | exact ⟨_, rfl⟩
      | exact ⟨[], (List.append_nil _).symm⟩
      | exact fun k h => lookupA_updateA_isSome _ _ _ _ h
      | exact fun h => rfl
      | (intro h
         cases hc : r.copy_out_start <;> simp [hc])

theorem rpcStep_mono (tname : String) (s : RpcState) (e : RpcEvent) (id : ℕ)
    (r : Rpc) (h : lookupA s id = some r) :
    ∃ r', lookupA (rpcStep tname s e) id = some r' ∧ RpcMono r r' := by
  rcases rpcStep_cases tname s e with hs | ⟨v, hv, hm⟩
  · exact ⟨r, by rw [hs, h], RpcMono.refl r⟩
  · by_cases hid : id = e.rid
    · subst hid
      exact ⟨v, by rw [hv, lookupA_updateA_self], hm r h⟩
    · exact ⟨r, by rw [hv, lookupA_updateA_ne _ _ _ _ hid, h], RpcMono.refl r⟩

/-- C1: the claim as stated is false. Processing a send_data event for an
identifier that has not been seen before does NOT create a bare RPC record:
AnalyzeRpc.tt_send_data returns immediately when the id is absent from the
rpcs table, so after the handler runs the identifier is not a key. -/
theorem c1_counterexample :
    lookupA (rpcStep "node1" ([] : RpcState) (RpcEvent.send_data 5 0 42 0 100))
      42 = none := rfl

/-- C1 (amended): for every event type carrying an RPC identifier except
send_data, processing an event for an unseen identifier creates a bare RPC
record (the identifier becomes a key of the rpcs table); a send_data event
for an unseen identifier instead leaves the table unchanged, because
tt_send_data requires an existing record with a pending ip_xmit entry. -/
theorem c1_record_creation (tname : String) (s : RpcState) (e : RpcEvent)
    (hnew : lookupA s e.rid = none) :
    (e.isSendData = false → (lookupA (rpcStep tname s e) e.rid).isSome = true)
    ∧ (e.isSendData = true → rpcStep tname s e = s) := by
  cases e
  case send_data t c id off len =>
    constructor
    · intro hfalse
      simp [RpcEvent.isSendData] at hfalse
    · intro _
      simp only [RpcEvent.rid] at hnew
      simp only [rpcStep, hnew]
  all_goals
    constructor
    · intro _
      rw [rpcStep]
      simp only [RpcEvent.rid]
      rw [lookupA_updateA_self]
      rfl
    · intro htrue
      simp [RpcEvent.isSendData] at htrue

/-- C1 (amended, witness): at a concrete unseen id, a recvmsg_done event
creates the record while a send_data event leaves the empty table empty. -/
theorem c1_record_creation_witness :
    (lookupA (rpcStep "n0" ([] : RpcState) (RpcEvent.recvmsg_done 1 0 8 100))
        8).isSome = true
    ∧ rpcStep "n0" ([] : RpcState) (RpcEvent.send_data 5 0 42 0 100)
        = ([] : RpcState) :=
  ⟨(c1_record_creation "n0" [] (RpcEvent.recvmsg_done 1 0 8 100) rfl).1 rfl,
   (c1_record_creation "n0" [] (RpcEvent.send_data 5 0 42 0 100) rfl).2 rfl⟩

/-- C6: the claim as stated is false. The entry written into the ip_xmits
map of record 2 by an ip_xmit event (offset 0, time 1) is present after that
event, but a later send_data event for the same id and offset deletes it
(tt_send_data consumes the pending entry with del), so data previously
stored in the record is lost. -/
theorem c6_counterexample :
    ((lookupA (rpcRun "n0" [] [RpcEvent.ip_xmit 1 0 2 0]) 2).map
        (fun r => lookupA r.ip_xmits 0)) = some (some 1)
    ∧ ((lookupA (rpcRun "n0" []
          [RpcEvent.ip_xmit 1 0 2 0, RpcEvent.send_data 5 0 2 0 100]) 2).map
        (fun r => lookupA r.ip_xmits 0)) = some none := by
  constructor <;> rfl

/-- C6 (amended): processing any sequence of events for an identifier never
loses the record or its top-level fields: scalar fields that were present
stay present, all six packet lists are append-only, and the resend and
retransmit maps never lose keys. The one exception, forced by the
counterexample, is the ip_xmits map, whose per-offset entries are consumed
(deleted) by the matching send_data event. -/
theorem c6_monotonic_merge (tname : String) (s : RpcState)
    (es : List RpcEvent) (id : ℕ) (r : Rpc) (h : lookupA s id = some r) :
    ∃ r', lookupA (rpcRun tname s es) id = some r' ∧ RpcMono r r' := by
  induction es generalizing s r with
  | nil => exact ⟨r, h, RpcMono.refl r⟩
  | cons e rest ih =>
    obtain ⟨r1, h1, m1⟩ := rpcStep_mono tname s e id r h
    obtain ⟨r2, h2, m2⟩ := ih (rpcStep tname s e) r1 h1
    exact ⟨r2, h2, m1.trans m2⟩

/-- Concrete record used in the C6 witness: id 2 with one pending ip_xmit. -/
def c6_r0 : Rpc := { name := "n0", ip_xmits := [(0, 1)] }

/-- C6 (amended, witness): concrete instance, processing a send_data event
over a table holding c6_r0 at id 2. -/
theorem c6_monotonic_merge_witness :
    ∃ r', lookupA (rpcRun "n0" [(2, c6_r0)] [RpcEvent.send_data 5 0 2 0 100])
        2 = some r' ∧ RpcMono c6_r0 r' :=
  c6_monotonic_merge "n0" [(2, c6_r0)] [RpcEvent.send_data 5 0 2 0 100] 2
    c6_r0 rfl

/-
The Dispatcher (class Dispatcher in tthoma.py). Patterns are the declared
(name, regexp) entries, in declaration order. The regexp engine is abstracted
as a Boolean match function applied to the pattern's regexp and the message
text (the part of the line after the common envelope); the dispatch logic
itself - subscription, active-list construction, first-match-wins with break,
synchronous subscriber invocation - is modeled directly.
-/

structure Pattern where
  name : String
  regexp : String
deriving DecidableEq

/-- Dispatcher.patterns: the declared pattern table, in declaration order. -/
def patterns : List Pattern := [
  ⟨"gro_data",
   "homa_gro_receive got packet from ([^ ]+) id ([0-9]+), offset ([0-9.]+)"⟩,
  ⟨"gro_grant",
   "homa_gro_receive got grant from ([^ ]+) id ([0-9]+), offset ([0-9]+), priority ([0-9]+)"⟩,
  ⟨"softirq_data",
   "incoming data packet, id ([0-9]+), .*, offset ([0-9.]+)/([0-9.]+)"⟩,
  ⟨"softirq_grant",
   "processing grant for id ([0-9]+), offset ([0-9]+)"⟩,
  ⟨"ip_xmit",
   "calling ip.*_xmit: .* id ([0-9]+), offset ([0-9]+)"⟩,
  ⟨"send_data",
   "Finished queueing packet: rpc id ([0-9]+), offset ([0-9]+), len ([0-9]+)"⟩,
  ⟨"send_grant",
   "sending grant for id ([0-9]+), offset ([0-9]+), priority ([0-9]+)"⟩,
  ⟨"sendmsg_request",
   "homa_sendmsg request, target ([^: ]+):.* id ([0-9]+), length ([0-9]+)"⟩,
  ⟨"sendmsg_response",
   "homa_sendmsg response, id ([0-9]+), .*length ([0-9]+)"⟩,
  ⟨"recvmsg_done",
   "homa_recvmsg returning id ([0-9]+), length ([0-9]+)"⟩,
  ⟨"copy_in_start",
   "starting copy from user space"⟩,
  ⟨"copy_in_done",
   "finished copy from user space for id ([-0-9.]+), length ([-0-9.]+)"⟩,
  ⟨"copy_out_start",
   "starting copy to user space for id ([0-9]+)"⟩,
  ⟨"copy_out_done",
   "finished copying ([-0-9.]+) bytes for id ([-0-9.]+)"⟩,
  ⟨"free_skbs",
   "finished freeing ([0-9]+) skbs"⟩,
  ⟨"resend",
   "Sent RESEND for client RPC id ([0-9]+), .* offset ([0-9]+)"⟩,
  ⟨"retransmit",
   "retransmitting offset ([0-9]+), length ([0-9]+), id ([0-9]+)"⟩]

/-- Dispatcher.interest (lines 228-231): subscribing obj to pattern pat
appends obj to that pattern's subscriber list, in registration order,
creating the list if needed. -/
def add_interest (ints : List (String × List String)) (pat obj : String) :
    List (String × List String) :=
  updateA ints pat ((lookupA ints pat).getD [] ++ [obj])

/-- Dispatcher.__build_active (lines 290-302): the declared patterns that
appear in the interests table, kept in declaration order. -/
def build_active (ints : List (String × List String)) :
    List Pattern → List Pattern
  | [] => []
  | p :: rest =>
    if (lookupA ints p.name).isSome then p :: build_active ints rest
    else build_active ints rest

/-- The matching loop of Dispatcher.parse (lines 281-286): try the active
patterns in order; on the first match, the pattern's parser runs with that
pattern's subscriber list and the loop breaks. Returns the winning pattern
name with its subscribers, or none when no active pattern matches. -/
def dispatch_line (rmatch : String → String → Bool)
    (ints : List (String × List String)) :
    List Pattern → String → Option (String × List String)
  | [], _ => none
  | p :: rest, msg =>
    if rmatch p.regexp msg then some (p.name, (lookupA ints p.name).getD [])
    else dispatch_line rmatch ints rest msg

/-- The subscriber invocations produced by one line: one (pattern name,
subscriber) call per subscriber of the winning pattern, in subscription
order; no calls when no pattern matches. -/
def line_calls (rmatch : String → String → Bool)
    (ints : List (String × List String)) (act : List Pattern)
    (msg : String) : List (String × String) :=
  match dispatch_line rmatch ints act msg with
  | none => []
  | some (pname, subs) => subs.map (fun s => (pname, s))

/-- Dispatcher.parse over the message bodies of one file: lines are handled
strictly in order, each line's subscriber invocations completing before the
next line is read. -/
def parse_lines (rmatch : String → String → Bool)
    (ints : List (String × List String)) (act : List Pattern) :
    List String → List (String × String)
  | [] => []
  | msg :: rest =>
    line_calls rmatch ints act msg ++ parse_lines rmatch ints act rest

theorem build_active_eq_filter (ints : List (String × List String))
    (pats : List Pattern) :
    build_active ints pats
      = pats.filter (fun p => (lookupA ints p.name).isSome) := by
  induction pats with
  | nil => rfl
  | cons p rest ih =>
    by_cases h : (lookupA ints p.name).isSome
    · simp [build_active, h, List.filter_cons, ih]
    · simp [build_active, h, List.filter_cons, ih]

theorem dispatch_line_eq_find (rmatch : String → String → Bool)
    (ints : List (String × List String)) (act : List Pattern) (msg : String) :
    dispatch_line rmatch ints act msg
      = (act.find? (fun p => rmatch p.regexp msg)).map
          (fun p => (p.name, (lookupA ints p.name).getD [])) := by
  induction act with
  | nil => rfl
  | cons p rest ih =>
    by_cases h : rmatch p.regexp msg
    · simp [dispatch_line, h, List.find?_cons, ih]
    · simp [dispatch_line, h, List.find?_cons, ih]

theorem parse_lines_eq_flatten (rmatch : String → String → Bool)
    (ints : List (String × List String)) (act : List Pattern)
    (msgs : List String) :
    parse_lines rmatch ints act msgs
      = (msgs.map (line_calls rmatch ints act)).flatten := by
  induction msgs with
  | nil => rfl
  | cons m rest ih => simp [parse_lines, ih]

/-- C7: for every line, the dispatcher produces at most one event (the
result is an Option): the active patterns are exactly the subscribed ones
in declared order, the first active pattern whose regexp matches wins and
contributes exactly its own subscriber list, the per-line invocations are
completed in line order before the next line, and interest registration
appends subscribers so the invoked list is in subscription order. -/
theorem c7_dispatcher (rmatch : String → String → Bool)
    (ints : List (String × List String)) (pats : List Pattern)
    (msg : String) (msgs : List String) :
    build_active ints pats
        = pats.filter (fun p => (lookupA ints p.name).isSome)
    ∧ dispatch_line rmatch ints (build_active ints pats) msg
        = ((build_active ints pats).find? (fun p => rmatch p.regexp msg)).map
            (fun p => (p.name, (lookupA ints p.name).getD []))
    ∧ parse_lines rmatch ints (build_active ints pats) msgs
        = (msgs.map (line_calls rmatch ints (build_active ints pats))).flatten
    ∧ ∀ pat obj : String,
        (lookupA (add_interest ints pat obj) pat).getD []
          = (lookupA ints pat).getD [] ++ [obj] :=
  ⟨build_active_eq_filter ints pats,
   dispatch_line_eq_find rmatch ints (build_active ints pats) msg,
   parse_lines_eq_flatten rmatch ints (build_active ints pats) msgs,
   fun pat obj => by rw [add_interest, lookupA_updateA_self, Option.getD_some]⟩

/-
AnalyzeActivity.sum_list (lines 545-574): the sweep-line accumulator over a
time-sorted list of start/end markers. A marker is (time, isStart) with
isStart = true for 'start'. The Python loop carries mutable state
(num_starts, cur_active, active_time, active_integral, last_time); here it
is the explicit recursion sum_list_go.
-/

def sum_list_go (cur : ℤ) (last : ℚ) (ns : ℕ) (atime aint : ℚ) :
    List (ℚ × Bool) → ℕ × ℚ × ℚ
  | [] => (ns, atime, aint)
  | (t, ev) :: rest =>
    let delta := t - last
    let atime2 := if cur ≠ 0 then atime + delta else atime
    let aint2 := aint + delta * (cur : ℚ)
    if ev then sum_list_go (cur + 1) t (ns + 1) atime2 aint2 rest
    else sum_list_go (cur - 1) t ns atime2 aint2 rest

/-- AnalyzeActivity.sum_list. Returns none exactly when the code raises:
IndexError on an empty list (events[0]), or ZeroDivisionError when the
first and last markers carry the same time. -/
def sum_list (events : List (ℚ × Bool)) : Option (ℕ × ℚ × ℚ) :=
  match events with
  | [] => none
  | e0 :: _ =>
    let r := sum_list_go 0 e0.1 0 0 0 events
    let total := ((events.getLast?).getD e0).1 - e0.1
    if total = 0 then none
    else some (r.1, r.2.1 / total, r.2.2 / total)

/-
Specification-side definitions for the sweep line, phrased as in the spec:
prefix counts of start minus end markers, the inter-marker intervals, the
total width of intervals with positive active-count, and the time-weighted
integral of the active-count.
-/

/-- Running active-count: entry k is c plus (number of start markers minus
number of end markers) among the first k markers. -/
def run_counts (c : ℤ) (events : List (ℚ × Bool)) : List ℤ :=
  List.scanl (fun k e => if e then k + 1 else k - 1) c (events.map Prod.snd)

/-- The inter-marker intervals: each consecutive pair of markers yields the
interval width paired with the active-count holding on that interval. -/
def spec_pieces_from (c : ℤ) (events : List (ℚ × Bool)) : List (ℚ × ℤ) :=
  ((events.zip events.tail).zip ((run_counts c events).drop 1)).map
    (fun p => (p.1.2.1 - p.1.1.1, p.2))

/-- Total width of the intervals on which the active-count exceeds zero. -/
def spec_active_time (events : List (ℚ × Bool)) : ℚ :=
  ((spec_pieces_from 0 events).map (fun p => if 0 < p.2 then p.1 else 0)).sum

/-- Time-weighted integral of the active-count over the spanned time. -/
def spec_active_integral (events : List (ℚ × Bool)) : ℚ :=
  ((spec_pieces_from 0 events).map (fun p => p.1 * (p.2 : ℚ))).sum

/-- The number of start markers. -/
def num_starts_spec (events : List (ℚ × Bool)) : ℕ :=
  (events.filter Prod.snd).length

/-- The total spanned time: last marker time minus first marker time. -/
def span_of (events : List (ℚ × Bool)) : ℚ :=
  ((events.getLast?).getD (0, false)).1 - (events.headD (0, false)).1

/-- Helper recursions mirroring the two accumulators of the sweep loop. -/
def piece_atime (c : ℤ) (last : ℚ) : List (ℚ × Bool) → ℚ
  | [] => 0
  | (t, e) :: rest =>
    (if c ≠ 0 then t - last else 0) +
      piece_atime (if e then c + 1 else c - 1) t rest

def piece_aint (c : ℤ) (last : ℚ) : List (ℚ × Bool) → ℚ
  | [] => 0
  | (t, e) :: rest =>
    (t - last) * (c : ℚ) + piece_aint (if e then c + 1 else c - 1) t rest

theorem sum_list_go_spec (l : List (ℚ × Bool)) :
    ∀ (c : ℤ) (last : ℚ) (ns : ℕ) (a i : ℚ),
    sum_list_go c last ns a i l
      = (ns + num_starts_spec l, a + piece_atime c last l,
         i + piece_aint c last l) := by
  induction l with
  | nil =>
    intro c last ns a i
    simp [sum_list_go, num_starts_spec, piece_atime, piece_aint]
  | cons hd rest ih =>
    intro c last ns a i
    obtain ⟨t, ev⟩ := hd
    cases ev with
    | true =>
      have hstep : sum_list_go c last ns a i ((t, true) :: rest)
          = sum_list_go (c + 1) t (ns + 1)
              (if c ≠ 0 then a + (t - last) else a)
              (i + (t - last) * (c : ℚ)) rest := rfl
      have hns : num_starts_spec ((t, true) :: rest)
          = num_starts_spec rest + 1 := by
        simp [num_starts_spec]
      have hpa : piece_atime c last ((t, true) :: rest)
          = (if c ≠ 0 then t - last else 0) + piece_atime (c + 1) t rest := rfl
      have hpi : piece_aint c last ((t, true) :: rest)
          = (t - last) * (c : ℚ) + piece_aint (c + 1) t rest := rfl
      rw [hstep, ih, hns, hpa, hpi]
      simp only [Prod.mk.injEq]
      refine ⟨by omega, ?_, by ring⟩
      split_ifs <;> ring
    | false =>
      have hstep : sum_list_go c last ns a i ((t, false) :: rest)
          = sum_list_go (c - 1) t ns
              (if c ≠ 0 then a + (t - last) else a)
              (i + (t - last) * (c : ℚ)) rest := rfl
      have hns : num_starts_spec ((t, false) :: rest)
          = num_starts_spec rest := by
        simp [num_starts_spec]
      have hpa : piece_atime c last ((t, false) :: rest)
          = (if c ≠ 0 then t - last else 0) + piece_atime (c - 1) t rest := rfl
      have hpi : piece_aint c last ((t, false) :: rest)
          = (t - last) * (c : ℚ) + piece_aint (c - 1) t rest := rfl
      rw [hstep, ih, hns, hpa, hpi]
      simp only [Prod.mk.injEq]
      refine ⟨trivial, ?_, by ring⟩
      split_ifs <;> ring

theorem spec_pieces_from_single (c : ℤ) (x : ℚ × Bool) :
    spec_pieces_from c [x] = [] := by
  simp [spec_pieces_from]

theorem spec_pieces_from_cons2 (c : ℤ) (t0 t1 : ℚ) (e0 e1 : Bool)
    (r : List (ℚ × Bool)) :
    spec_pieces_from c ((t0, e0) :: (t1, e1) :: r)
      = (t1 - t0, if e0 then c + 1 else c - 1)
          :: spec_pieces_from (if e0 then c + 1 else c - 1) ((t1, e1) :: r) := by
  simp [spec_pieces_from, run_counts]

theorem piece_atime_spec (l : List (ℚ × Bool)) :
    ∀ (t : ℚ) (e : Bool) (c : ℤ) (last : ℚ),
    piece_atime c last ((t, e) :: l)
      = (if c ≠ 0 then t - last else 0)
        + ((spec_pieces_from c ((t, e) :: l)).map
            (fun p => if p.2 ≠ 0 then p.1 else 0)).sum := by
  induction l with
  | nil =>
    intro t e c last
    simp [piece_atime, spec_pieces_from_single]
  | cons hd r ih =>
    intro t e c last
    obtain ⟨t1, e1⟩ := hd
    rw [piece_atime, spec_pieces_from_cons2, List.map_cons, List.sum_cons,
      ih t1 e1 (if e then c + 1 else c - 1) t]

theorem piece_aint_spec (l : List (ℚ × Bool)) :
    ∀ (t : ℚ) (e : Bool) (c : ℤ) (last : ℚ),
    piece_aint c last ((t, e) :: l)
      = (t - last) * (c : ℚ)
        + ((spec_pieces_from c ((t, e) :: l)).map
            (fun p => p.1 * (p.2 : ℚ))).sum := by
  induction l with
  | nil =>
    intro t e c last
    simp [piece_aint, spec_pieces_from_single]
  | cons hd r ih =>
    intro t e c last
    obtain ⟨t1, e1⟩ := hd
    rw [piece_aint, spec_pieces_from_cons2, List.map_cons, List.sum_cons,
      ih t1 e1 (if e then c + 1 else c - 1) t]

theorem spec_pieces_from_counts (c : ℤ) (events : List (ℚ × Bool))
    (p : ℚ × ℤ) (hp : p ∈ spec_pieces_from c events) :
    p.2 ∈ run_counts c events := by
  rw [spec_pieces_from] at hp
  rw [List.mem_map] at hp
  obtain ⟨q, hq, hfq⟩ := hp
  have h2 := (List.of_mem_zip hq).2
  have h3 := List.mem_of_mem_drop h2
  rw [← hfq]
  exact h3

theorem sum_list_cons (e0 : ℚ × Bool) (rest : List (ℚ × Bool)) :
    sum_list (e0 :: rest)
      = (if (((e0 :: rest).getLast?).getD e0).1 - e0.1 = 0 then none
         else some ((sum_list_go 0 e0.1 0 0 0 (e0 :: rest)).1,
           (sum_list_go 0 e0.1 0 0 0 (e0 :: rest)).2.1
             / ((((e0 :: rest).getLast?).getD e0).1 - e0.1),
           (sum_list_go 0 e0.1 0 0 0 (e0 :: rest)).2.2
             / ((((e0 :: rest).getLast?).getD e0).1 - e0.1))) := rfl

/-- C5: the sweep-line accumulator on the marker list
[(0,start),(5,end),(5,start),(10,end)] returns 2 starts, active fraction
exactly 1 and average concurrency exactly 1; and in general, on a nonempty
marker list whose running active-count never goes negative and whose span is
nonzero, it returns the number of starts, the fraction of the spanned time
on which the active-count exceeds zero, and the time-weighted integral of
the active-count divided by the span. -/
theorem c5_sweep_line :
    sum_list [((0 : ℚ), true), ((5 : ℚ), false), ((5 : ℚ), true),
        ((10 : ℚ), false)] = some (2, 1, 1)
    ∧ ∀ events : List (ℚ × Bool), events ≠ [] →
        (∀ k ∈ run_counts 0 events, 0 ≤ k) →
        span_of events ≠ 0 →
        sum_list events
          = some (num_starts_spec events,
              spec_active_time events / span_of events,
              spec_active_integral events / span_of events) := by
  constructor
  · norm_num [sum_list, sum_list_go]
  · intro events hne hnn hsp
    obtain ⟨e0, rest, rfl⟩ := List.exists_cons_of_ne_nil hne
    obtain ⟨t0, ev0⟩ := e0
    have hsome : ((t0, ev0) :: rest).getLast?.isSome := by
      rw [List.getLast?_isSome]
      exact List.cons_ne_nil _ _
    obtain ⟨x, hx⟩ := Option.isSome_iff_exists.mp hsome
    have hspan : span_of ((t0, ev0) :: rest) = x.1 - t0 := by
      rw [span_of, hx]
      rfl
    have hmapeq :
        ((spec_pieces_from 0 ((t0, ev0) :: rest)).map
            (fun p => if p.2 ≠ 0 then p.1 else 0))
          = ((spec_pieces_from 0 ((t0, ev0) :: rest)).map
            (fun p => if 0 < p.2 then p.1 else 0)) := by
      apply List.map_congr_left
      intro p hp
      have h0 := hnn p.2 (spec_pieces_from_counts 0 _ p hp)
      by_cases hz : p.2 = 0
      · simp [hz]
      · have hpos : 0 < p.2 := lt_of_le_of_ne h0 (Ne.symm hz)
        simp [hz, hpos]
    have hgo := sum_list_go_spec ((t0, ev0) :: rest) 0 t0 0 0 0
    have hpa := piece_atime_spec rest t0 ev0 0 t0
    have hpi := piece_aint_spec rest t0 ev0 0 t0
    rw [sum_list_cons, hx]
    simp only [Option.getD_some]
    rw [hspan] at hsp
    rw [if_neg hsp, hgo]
    simp only [Nat.zero_add, zero_add]
    rw [hpa, hpi, hmapeq]
    rw [span_of, hx] at *
    simp only [Option.getD_some, List.headD_cons]
    rw [spec_active_time, spec_active_integral]
    norm_num

/-- C5 (witness): the general sweep-line characterization instantiated at
the concrete marker list of the claim. -/
theorem c5_sweep_line_witness :
    sum_list [((0 : ℚ), true), ((5 : ℚ), false), ((5 : ℚ), true),
        ((10 : ℚ), false)]
      = some (num_starts_spec [((0 : ℚ), true), ((5 : ℚ), false),
            ((5 : ℚ), true), ((10 : ℚ), false)],
          spec_active_time [((0 : ℚ), true), ((5 : ℚ), false), ((5 : ℚ), true),
              ((10 : ℚ), false)]
            / span_of [((0 : ℚ), true), ((5 : ℚ), false), ((5 : ℚ), true),
              ((10 : ℚ), false)],
          spec_active_integral [((0 : ℚ), true), ((5 : ℚ), false),
              ((5 : ℚ), true), ((10 : ℚ), false)]
            / span_of [((0 : ℚ), true), ((5 : ℚ), false), ((5 : ℚ), true),
              ((10 : ℚ), false)]) :=
  c5_sweep_line.2 _ (by simp)
    (by
      intro k hk
      simp [run_counts, List.scanl] at hk
      rcases hk with h | h | h | h | h <;> simp [h])
    (by norm_num [span_of])

/-
AnalyzeCopy (lines 718-952): per-trace state machine for user/kernel copy
measurements. Field names follow the keys of the trace['copy'] dict
initialized in init_trace.
-/

structure CopyStats where
  in_start : List (ℕ × ℚ) := []
  large_in_data : ℤ := 0
  large_in_time : ℚ := 0
  large_in_count : ℕ := 0
  small_in_times : List ℚ := []
  total_in_time : ℚ := 0
  out_start : List (ℕ × ℚ) := []
  out_end : List (ℕ × ℚ) := []
  out_size : List (ℕ × ℤ) := []
  large_out_data : ℤ := 0
  large_out_time : ℚ := 0
  large_out_time_with_skbs : ℚ := 0
  large_out_count : ℕ := 0
  small_out_times : List ℚ := []
  total_out_time : ℚ := 0
  skbs_freed : ℤ := 0
  skb_free_time : ℚ := 0
deriving DecidableEq

/-- AnalyzeCopy.tt_copy_in_start. -/
def tt_copy_in_start (st : CopyStats) (time : ℚ) (core : ℕ) : CopyStats :=
  { st with in_start := updateA st.in_start core time }

/-- AnalyzeCopy.tt_copy_in_done (lines 788-802): with a pending start on the
same core, accumulate total time and bucket the elapsed time by num_bytes
(at most 1000: small latency samples; at least 5000: large throughput
accumulators; otherwise neither). Without a pending start, no change. -/
def tt_copy_in_done (st : CopyStats) (time : ℚ) (core : ℕ) (num_bytes : ℤ) :
    CopyStats :=
  match lookupA st.in_start core with
  | none => st
  | some t0 =>
    let delta := time - t0
    let st1 := { st with total_in_time := st.total_in_time + delta }
    if num_bytes ≤ 1000 then
      { st1 with small_in_times := st1.small_in_times ++ [delta] }
    else if num_bytes ≥ 5000 then
      { st1 with large_in_data := st1.large_in_data + num_bytes,
                 large_in_time := st1.large_in_time + delta,
                 large_in_count := st1.large_in_count + 1 }
    else st1

/-- AnalyzeCopy.tt_copy_out_start. -/
def tt_copy_out_start (st : CopyStats) (time : ℚ) (core : ℕ) : CopyStats :=
  { st with out_start := updateA st.out_start core time }

/-- AnalyzeCopy.tt_copy_out_done (lines 808-825): the outbound path buckets
identically, and additionally records the copy end time and size per core
and accumulates the with-skbs time. -/
def tt_copy_out_done (st : CopyStats) (time : ℚ) (core : ℕ) (num_bytes : ℤ) :
    CopyStats :=
  match lookupA st.out_start core with
  | none => st
  | some t0 =>
    let delta := time - t0
    let st1 := { st with out_end := updateA st.out_end core time,
                         out_size := updateA st.out_size core num_bytes,
                         total_out_time := st.total_out_time + delta }
    if num_bytes ≤ 1000 then
      { st1 with small_out_times := st1.small_out_times ++ [delta] }
    else if num_bytes ≥ 5000 then
      { st1 with large_out_data := st1.large_out_data + num_bytes,
                 large_out_time := st1.large_out_time + delta,
                 large_out_time_with_skbs := st1.large_out_time_with_skbs + delta,
                 large_out_count := st1.large_out_count + 1 }
    else st1

/-- AnalyzeCopy.tt_free_skbs (lines 827-834). -/
def tt_free_skbs (st : CopyStats) (time : ℚ) (core : ℕ) (num_skbs : ℤ) :
    CopyStats :=
  match lookupA st.out_end core with
  | none => st
  | some t0 =>
    let delta := time - t0
    let st1 := { st with skbs_freed := st.skbs_freed + num_skbs,
                         skb_free_time := st.skb_free_time + delta }
    if (lookupA st.out_size core).getD 0 ≥ 5000 then
      { st1 with large_out_time_with_skbs := st1.large_out_time_with_skbs + delta }
    else st1

/-- The small-block columns of AnalyzeCopy.output (lines 865-875 and
901-911): zeros when there are no small samples, otherwise
(min, P50, P90, P99, max, average) of the sorted sample list. -/
def copy_short_stats (times : List ℚ) : ℚ × ℚ × ℚ × ℚ × ℚ × ℚ :=
  match times with
  | [] => (0, 0, 0, 0, 0, 0)
  | _ :: _ =>
    let sorted_data := sortByLe (fun a b => decide (a ≤ b)) times
    (sorted_data.getD 0 0,
     sorted_data.getD (50 * times.length / 100) 0,
     sorted_data.getD (90 * times.length / 100) 0,
     sorted_data.getD (99 * times.length / 100) 0,
     sorted_data.getD (sorted_data.length - 1) 0,
     sorted_data.sum / times.length)

/-- The long-block throughput columns of AnalyzeCopy.output (lines 877-887
and 913-923): when no large-copy time was accumulated the code reports
'N/A' for both throughputs (none here) and zero active cores, computing
nothing. -/
def copy_long_tput (large_data : ℤ) (large_time total_time elapsed : ℚ) :
    Option ℚ × Option ℚ × ℚ :=
  if large_time = 0 then (none, none, 0)
  else (some ((8 / 1000 * large_data) / large_time),
        some ((8 / 1000 * large_data) / elapsed),
        total_time / elapsed)

/-- C8: for a copy-in completion with a recorded pending start on the same
core, byte counts at most 1000 append the elapsed time only to the
small-copy sample list (large accumulators untouched); byte counts at least
5000 update only the large-copy accumulators (data, time, count); counts
strictly between touch neither bucket. The outbound path buckets
identically. -/
theorem c8_copy_buckets (st : CopyStats) (time : ℚ) (core : ℕ)
    (num_bytes : ℤ) :
    (∀ t0, lookupA st.in_start core = some t0 →
      (num_bytes ≤ 1000 →
        (tt_copy_in_done st time core num_bytes).small_in_times
            = st.small_in_times ++ [time - t0]
        ∧ (tt_copy_in_done st time core num_bytes).large_in_data
            = st.large_in_data
        ∧ (tt_copy_in_done st time core num_bytes).large_in_time
            = st.large_in_time
        ∧ (tt_copy_in_done st time core num_bytes).large_in_count
            = st.large_in_count)
      ∧ (num_bytes ≥ 5000 →
        (tt_copy_in_done st time core num_bytes).small_in_times
            = st.small_in_times
        ∧ (tt_copy_in_done st time core num_bytes).large_in_data
            = st.large_in_data + num_bytes
        ∧ (tt_copy_in_done st time core num_bytes).large_in_time
            = st.large_in_time + (time - t0)
        ∧ (tt_copy_in_done st time core num_bytes).large_in_count
            = st.large_in_count + 1)
      ∧ (1000 < num_bytes → num_bytes < 5000 →
        (tt_copy_in_done st time core num_bytes).small_in_times
            = st.small_in_times
        ∧ (tt_copy_in_done st time core num_bytes).large_in_data
            = st.large_in_data
        ∧ (tt_copy_in_done st time core num_bytes).large_in_time
            = st.large_in_time
        ∧ (tt_copy_in_done st time core num_bytes).large_in_count
            = st.large_in_count))
    ∧ (∀ t0, lookupA st.out_start core = some t0 →
      (num_bytes ≤ 1000 →
        (tt_copy_out_done st time core num_bytes).small_out_times
            = st.small_out_times ++ [time - t0]
        ∧ (tt_copy_out_done st time core num_bytes).large_out_data
            = st.large_out_data
        ∧ (tt_copy_out_done st time core num_bytes).large_out_time
            = st.large_out_time
        ∧ (tt_copy_out_done st time core num_bytes).large_out_count
            = st.large_out_count)
      ∧ (num_bytes ≥ 5000 →
        (tt_copy_out_done st time core num_bytes).small_out_times
            = st.small_out_times
        ∧ (tt_copy_out_done st time core num_bytes).large_out_data
            = st.large_out_data + num_bytes
        ∧ (tt_copy_out_done st time core num_bytes).large_out_time
            = st.large_out_time + (time - t0)
        ∧ (tt_copy_out_done st time core num_bytes).large_out_count
            = st.large_out_count + 1)
      ∧ (1000 < num_bytes → num_bytes < 5000 →
        (tt_copy_out_done st time core num_bytes).small_out_times
            = st.small_out_times
        ∧ (tt_copy_out_done st time core num_bytes).large_out_data
            = st.large_out_data
        ∧ (tt_copy_out_done st time core num_bytes).large_out_time
            = st.large_out_time
        ∧ (tt_copy_out_done st time core num_bytes).large_out_count
            = st.large_out_count)) := by
  constructor
  · intro t0 h
    refine ⟨?_, ?_, ?_⟩
    · intro hsmall
      simp [tt_copy_in_done, h, hsmall]
    · intro hlarge
      have h1 : ¬ num_bytes ≤ 1000 := by omega
      simp [tt_copy_in_done, h, h1, hlarge]
    · intro hmid1 hmid2
      have h1 : ¬ num_bytes ≤ 1000 := by omega
      have h2 : ¬ num_bytes ≥ 5000 := by omega
      simp [tt_copy_in_done, h, h1, h2]
  · intro t0 h
    refine ⟨?_, ?_, ?_⟩
    · intro hsmall
      simp [tt_copy_out_done, h, hsmall]
    · intro hlarge
      have h1 : ¬ num_bytes ≤ 1000 := by omega
      simp [tt_copy_out_done, h, h1, hlarge]
    · intro hmid1 hmid2
      have h1 : ¬ num_bytes ≤ 1000 := by omega
      have h2 : ¬ num_bytes ≥ 5000 := by omega
      simp [tt_copy_out_done, h, h1, h2]

/-- C8 (witness): a concrete middle-sized (3000 byte) copy-in with a pending
start at time 0 on core 1 leaves both buckets untouched. -/
theorem c8_copy_buckets_witness :
    (tt_copy_in_done { in_start := [(1, 0)] } 7 1 3000).small_in_times = []
    ∧ (tt_copy_in_done { in_start := [(1, 0)] } 7 1 3000).large_in_count
        = 0 :=
  ⟨(((c8_copy_buckets { in_start := [(1, 0)] } 7 1 3000).1 0 rfl).2.2
      (by norm_num) (by norm_num)).1,
   (((c8_copy_buckets { in_start := [(1, 0)] } 7 1 3000).1 0 rfl).2.2
      (by norm_num) (by norm_num)).2.2.2⟩


/-
get_time_stats (lines 137-151): the numeric content of the statistics line
(min, P50, P90, P99, average); none stands for the returned string
'no data' on an empty sample list. The percentile indexing is the source's
sorted_data[p*len(sorted_data)//100].
-/
def get_time_stats (samples : List ℚ) : Option (ℚ × ℚ × ℚ × ℚ × ℚ) :=
  match samples with
  | [] => none
  | _ :: _ =>
    let sorted_data := sortByLe (fun a b => decide (a ≤ b)) samples
    some (sorted_data.getD 0 0,
          sorted_data.getD (50 * sorted_data.length / 100) 0,
          sorted_data.getD (90 * sorted_data.length / 100) 0,
          sorted_data.getD (99 * sorted_data.length / 100) 0,
          sorted_data.sum / samples.length)

/-- The spec-side percentile rule: the element at 0-indexed position
floor(p*n/100) of the sorted sample list. -/
def spec_percentile (p : ℕ) (samples : List ℚ) : Option ℚ :=
  (sortByLe (fun a b => decide (a ≤ b)) samples)[p * samples.length / 100]?

theorem length_insertLe {α : Type} (le : α → α → Bool) (a : α) (l : List α) :
    (insertLe le a l).length = l.length + 1 := by
  induction l with
  | nil => rfl
  | cons b rest ih =>
    by_cases h : le b a
    · simp [insertLe, h, ih]
    · simp [insertLe, h]

theorem length_sortByLe {α : Type} (le : α → α → Bool) (l : List α) :
    (sortByLe le l).length = l.length := by
  induction l with
  | nil => rfl
  | cons a rest ih => simp [sortByLe, length_insertLe, ih]

/-- The 100 sorted samples 1..100 of the claim. -/
def oneTo100 : List ℚ := [1, 2, 3, 4, 5, 6, 7, 8, 9, 10, 11, 12, 13, 14, 15, 16, 17, 18, 19, 20, 21, 22, 23, 24, 25, 26, 27, 28, 29, 30, 31, 32, 33, 34, 35, 36, 37, 38, 39, 40, 41, 42, 43, 44, 45, 46, 47, 48, 49, 50, 51, 52, 53, 54, 55, 56, 57, 58, 59, 60, 61, 62, 63, 64, 65, 66, 67, 68, 69, 70, 71, 72, 73, 74, 75, 76, 77, 78, 79, 80, 81, 82, 83, 84, 85, 86, 87, 88, 89, 90, 91, 92, 93, 94, 95, 96, 97, 98, 99, 100]

set_option maxRecDepth 100000 in
set_option maxHeartbeats 2000000 in
/-- C9: the percentile rule of get_time_stats selects, from the sorted
samples, the element at 0-indexed position floor(p*n/100); on the 100
sorted samples 1..100 this makes P50 the 51st value (51) and P99 the 100th
value (100). -/
theorem c9_percentile :
    (∀ samples : List ℚ, samples ≠ [] →
      (get_time_stats samples).map (fun q => q.2.1)
          = spec_percentile 50 samples
      ∧ (get_time_stats samples).map (fun q => q.2.2.1)
          = spec_percentile 90 samples
      ∧ (get_time_stats samples).map (fun q => q.2.2.2.1)
          = spec_percentile 99 samples)
    ∧ get_time_stats oneTo100 = some (1, 51, 91, 100, 101 / 2) := by
  constructor
  · intro samples hne
    obtain ⟨a, rest, rfl⟩ := List.exists_cons_of_ne_nil hne
    have hlen : (sortByLe (fun a b => decide (a ≤ b)) (a :: rest)).length
        = (a :: rest).length := length_sortByLe _ _
    have hpos : 0 < (a :: rest).length := by simp
    have hidx : ∀ p : ℕ, p ≤ 99 →
        p * (a :: rest).length / 100
          < (sortByLe (fun a b => decide (a ≤ b)) (a :: rest)).length := by
      intro p hp
      rw [hlen]
      rw [Nat.div_lt_iff_lt_mul (by norm_num)]
      have h99 : p * (a :: rest).length ≤ 99 * (a :: rest).length :=
        Nat.mul_le_mul_right _ hp
      omega
    have hunf : get_time_stats (a :: rest)
        = some ((sortByLe (fun a b => decide (a ≤ b)) (a :: rest)).getD 0 0,
            (sortByLe (fun a b => decide (a ≤ b)) (a :: rest)).getD
              (50 * (sortByLe (fun a b => decide (a ≤ b)) (a :: rest)).length
                / 100) 0,
            (sortByLe (fun a b => decide (a ≤ b)) (a :: rest)).getD
              (90 * (sortByLe (fun a b => decide (a ≤ b)) (a :: rest)).length
                / 100) 0,
            (sortByLe (fun a b => decide (a ≤ b)) (a :: rest)).getD
              (99 * (sortByLe (fun a b => decide (a ≤ b)) (a :: rest)).length
                / 100) 0,
            (sortByLe (fun a b => decide (a ≤ b)) (a :: rest)).sum
              / (a :: rest).length) := rfl
    refine ⟨?_, ?_, ?_⟩
    all_goals
      rw [hunf, spec_percentile]
      simp only [Option.map_some']
      simp only [hlen]
      rw [List.getElem?_eq_getElem (by
        first
          | exact hidx 50 (by norm_num)
          | exact hidx 90 (by norm_num)
          | exact hidx 99 (by norm_num))]
      congr 1
      exact List.getD_eq_getElem _ _ (by
        first
          | exact hidx 50 (by norm_num)
          | exact hidx 90 (by norm_num)
          | exact hidx 99 (by norm_num))
  · norm_num [get_time_stats, oneTo100, sortByLe, insertLe]

/-- C9 (witness): the percentile bridge at the concrete samples [3, 1, 2]. -/
theorem c9_percentile_witness :
    (get_time_stats [(3 : ℚ), 1, 2]).map (fun q => q.2.1)
      = spec_percentile 50 [(3 : ℚ), 1, 2] :=
  (c9_percentile.1 [(3 : ℚ), 1, 2] (by simp)).1

/-- C3: the claim as stated is false. A host with zero incoming (or zero
outgoing) messages hands AnalyzeActivity.sum_list an empty marker list, and
sum_list fails (events[0] raises IndexError, modeled by none) instead of
reporting a 'no data' result. -/
theorem c3_counterexample : sum_list ([] : List (ℚ × Bool)) = none := rfl

/-- C3 (amended): statistics over empty sample sets are reported as explicit
no-data results where the code guards them: get_time_stats returns 'no data'
exactly on an empty sample list, the copy analyzer prints zeros for an empty
small-copy bucket and 'N/A' throughputs when no large-copy time accumulated.
The activity analyzer however has no such guard: a host with zero incoming
or zero outgoing messages makes sum_list fail on the empty marker list. -/
theorem c3_empty_sample_guards :
    (∀ samples : List ℚ, get_time_stats samples = none ↔ samples = [])
    ∧ copy_short_stats [] = (0, 0, 0, 0, 0, 0)
    ∧ copy_long_tput 0 0 0 10 = (none, none, 0)
    ∧ sum_list ([] : List (ℚ × Bool)) = none := by
  refine ⟨?_, rfl, ?_, rfl⟩
  · intro samples
    cases samples with
    | nil => simp [get_time_stats]
    | cons a rest => simp [get_time_stats]
  · simp [copy_long_tput]

/-- C3 (amended, witness): get_time_stats on the singleton [4] is not
'no data'. -/
theorem c3_empty_sample_guards_witness :
    ¬ (get_time_stats [(4 : ℚ)] = none) := by
  have h := (c3_empty_sample_guards.1 [(4 : ℚ)])
  intro hc
  exact absurd (h.mp hc) (by simp)

/-
AnalyzeNet (lines 957-1273). collect_events pairs each RPC with its
counterpart (id XOR 1) and walks the receiver's GRO data packets in offset
order against the sender's send_data packets, emitting merged "recv" events
(with end-to-end delay = receive time minus matched transmit time) and
synthetic "xmit" events (flushing the accumulated transmitted bytes), per
receiving node. summarize_events folds the per-node streams into per-core
statistics and then averages.
-/

inductive EvKind where
  | xmit
  | recv
deriving DecidableEq

structure NetEvent where
  time : ℚ
  kind : EvKind
  length : ℤ
  core : ℕ
  delay : ℚ
deriving DecidableEq

/-- Result of the inner while loop of collect_events (lines 1029-1036):
the current sender packet and those after it, the accumulated xmit bytes,
the xmit events emitted while advancing, and whether the cursor ran off the
end of the sender's packet list (which breaks the outer loop). -/
structure WhileRes where
  cur : ℚ × ℤ × ℤ
  rest : List (ℚ × ℤ × ℤ)
  xb : ℤ
  em : List NetEvent
  ranOff : Bool

/-- The while loop: while recv_offset reaches past the current sender
packet, flush accumulated bytes as an xmit event and advance the cursor
(resetting the accumulator), stopping when the cursor runs off the end. -/
def netWhile (core : ℕ) (ro : ℤ) :
    (ℚ × ℤ × ℤ) → List (ℚ × ℤ × ℤ) → ℤ → WhileRes
  | cur, [], xb =>
    if ro ≥ cur.2.1 + cur.2.2 then
      ⟨cur, [], xb,
       if xb ≠ 0 then [⟨cur.1, EvKind.xmit, xb, core, 0⟩] else [], true⟩
    else ⟨cur, [], xb, [], false⟩
  | cur, nxt :: rest2, xb =>
    if ro ≥ cur.2.1 + cur.2.2 then
      let em := if xb ≠ 0 then [⟨cur.1, EvKind.xmit, xb, core, 0⟩] else []
      let w := netWhile core ro nxt rest2 0
      ⟨w.cur, w.rest, w.xb, em ++ w.em, w.ranOff⟩
    else ⟨cur, nxt :: rest2, xb, [], false⟩

/-- The walk over the receiver's packets in offset order (lines 1017-1055):
per packet compute its length from the next offset (or xmit_end), cap it at
one full network packet, skip packets before the first known transmit or
affected by resends/retransmits, and emit a recv event with delay recv time
minus matched transmit time; at the end (or when the sender cursor ran off)
flush remaining accumulated bytes as a final xmit event. -/
def netRecvLoop (core : ℕ) (maxData xmitEnd : ℤ) (rs ks : List ℤ) :
    (ℚ × ℤ × ℤ) → List (ℚ × ℤ × ℤ) → ℤ → List (ℚ × ℤ) → List NetEvent
  | cur, _, xb, [] =>
    if xb ≠ 0 then [⟨cur.1, EvKind.xmit, xb, core, 0⟩] else []
  | cur, rest, xb, (rt, ro) :: rrest =>
    let len0 := match rrest with
      | [] => xmitEnd - ro
      | (_, ro2) :: _ => ro2 - ro
    let len := if len0 > maxData then maxData else len0
    if ro < cur.2.1 then
      netRecvLoop core maxData xmitEnd rs ks cur rest xb rrest
    else
      let w := netWhile core ro cur rest xb
      if w.ranOff then
        w.em ++ (if w.xb ≠ 0 then [⟨w.cur.1, EvKind.xmit, w.xb, core, 0⟩]
          else [])
      else if ro ∈ rs ∨ ro ∈ ks then
        w.em ++ netRecvLoop core maxData xmitEnd rs ks w.cur w.rest w.xb rrest
      else
        w.em ++ (⟨rt, EvKind.recv, len, core, rt - w.cur.1⟩
          :: netRecvLoop core maxData xmitEnd rs ks w.cur w.rest (w.xb + len)
              rrest)

/-- One sender/receiver pair of collect_events (lines 992-1055): none when
the source hits continue after fetching the receiver's event list (missing
gro_core, or no way to determine xmit_end). With an empty sender packet
list the cursor starts at the sentinel offset 100000000 with length 0. -/
def pairEvents (maxData : ℤ) (xmit_rpc recv_rpc : Rpc) :
    Option (List NetEvent) :=
  match recv_rpc.gro_core with
  | none => none
  | some core =>
    let xmit_pkts := sortByLe (fun a b => decide (a.2.1 ≤ b.2.1))
      xmit_rpc.send_data
    let xend : Option ℤ :=
      match xmit_pkts.getLast? with
      | some lst => some (lst.2.1 + lst.2.2)
      | none =>
        match xmit_rpc.out_length with
        | some l => some l
        | none => recv_rpc.in_length
    match xend with
    | none => none
    | some xmitEnd =>
      let recv_pkts := sortByLe (fun a b => decide (a.2 ≤ b.2))
        recv_rpc.gro_data
      let rs := keysOf recv_rpc.resends
      let ks := keysOf xmit_rpc.retransmits
      match xmit_pkts with
      | [] =>
        some (netRecvLoop core maxData xmitEnd rs ks (0, 100000000, 0) [] 0
          recv_pkts)
      | c0 :: rest0 =>
        some (netRecvLoop core maxData xmitEnd rs ks c0 rest0 0 recv_pkts)

/-- The defaultdict access receivers[name] creates an empty entry. -/
def ensureKey (m : List (String × List NetEvent)) (k : String) :
    List (String × List NetEvent) :=
  match lookupA m k with
  | some _ => m
  | none => m ++ [(k, [])]

/-- receiver.append(...) for a whole pair run: extend the entry for k. -/
def appendAt (m : List (String × List NetEvent)) (k : String)
    (evs : List NetEvent) : List (String × List NetEvent) :=
  match lookupA m k with
  | some cur => updateA m k (cur ++ evs)
  | none => m ++ [(k, evs)]

/-- One iteration of the pair loop of collect_events: find the counterpart
id XOR 1, fetch (and create) the receiver's event list, and append the
pair's events when the pair is processable. -/
def collect_step (maxData : ℤ) (rpcsT : List (ℕ × Rpc))
    (acc : List (String × List NetEvent)) (p : ℕ × Rpc) :
    List (String × List NetEvent) :=
  match lookupA rpcsT (p.1 ^^^ 1) with
  | none => acc
  | some rrpc =>
    let acc1 := ensureKey acc rrpc.name
    match pairEvents maxData p.2 rrpc with
    | none => acc1
    | some evs => appendAt acc1 rrpc.name evs

/-- AnalyzeNet.collect_events over an rpcs table: pair every RPC with its
counterpart id XOR 1, append the pair's event run to the receiving node's
list, then sort each node's list by time. -/
def collect_events (maxData : ℤ) (rpcs : List (ℕ × Rpc)) :
    List (String × List NetEvent) :=
  (rpcs.foldl (collect_step maxData rpcs) []).map
    (fun p => (p.1, sortByLe (fun a b => decide (a.time ≤ b.time)) p.2))

/-- Per-core statistics of AnalyzeNet.summarize_events. max_delay_time and
max_backlog_time are absent from the initial defaultdict value and only set
later, hence Options. -/
structure CoreStats where
  num_packets : ℕ := 0
  avg_delay : ℚ := 0
  max_delay : ℚ := 0
  max_delay_time : Option ℚ := none
  avg_backlog : ℚ := 0
  max_backlog : ℤ := 0
  max_backlog_time : Option ℚ := none
  cur_backlog : ℤ := 0
  prev_time : ℚ := 0
deriving DecidableEq

/-- One event folded into a core's statistics (lines 1088-1108). -/
def step_core (cs : CoreStats) (e : NetEvent) : CoreStats :=
  let cs1 := { cs with avg_backlog :=
    cs.avg_backlog + (cs.cur_backlog : ℚ) * (e.time - cs.prev_time) }
  match e.kind with
  | EvKind.recv =>
    let cs2 := { cs1 with num_packets := cs1.num_packets + 1,
                          avg_delay := cs1.avg_delay + e.delay }
    let cs3 := if e.delay > cs2.max_delay then
        { cs2 with max_delay := e.delay, max_delay_time := some e.time }
      else cs2
    let cs4 := if cs3.cur_backlog = cs3.max_backlog then
        { cs3 with max_backlog_time := some e.time }
      else cs3
    { cs4 with cur_backlog := cs4.cur_backlog - e.length, prev_time := e.time }
  | EvKind.xmit =>
    let cs2 := { cs1 with cur_backlog := cs1.cur_backlog + e.length }
    let cs3 := if cs2.cur_backlog > cs2.max_backlog then
        { cs2 with max_backlog := cs2.cur_backlog }
      else cs2
    { cs3 with prev_time := e.time }

/-- The first pass of summarize_events over one node's event list, building
the per-core tables (keys in first-touch order, as the defaultdict). -/
def stats_fold : List (ℕ × CoreStats) → List NetEvent → List (ℕ × CoreStats)
  | m, [] => m
  | m, e :: rest =>
    stats_fold (updateA m e.core (step_core ((lookupA m e.core).getD {}) e))
      rest

/-- The final averaging pass of summarize_events (lines 1109-1111):
avg_delay /= num_packets is a ZeroDivisionError (none) when the core saw no
recv events; avg_backlog is divided by the trace's elapsed time. -/
def divide_all (elapsed : ℚ) :
    List (ℕ × CoreStats) → Option (List (ℕ × CoreStats))
  | [] => some []
  | (c, cs) :: rest =>
    if cs.num_packets = 0 then none
    else
      match divide_all elapsed rest with
      | none => none
      | some r =>
        some ((c, { cs with avg_delay := cs.avg_delay / (cs.num_packets : ℚ),
                            avg_backlog := cs.avg_backlog / elapsed }) :: r)

/-- summarize_events for one node: none when a division would fail (a core
with zero received packets, or a zero elapsed time). -/
def summarize_node (elapsed : ℚ) (evs : List NetEvent) :
    Option (List (ℕ × CoreStats)) :=
  if elapsed = 0 then none else divide_all elapsed (stats_fold [] evs)

/-- The sender side of the C4 scenario: send_data packets
(t=0, offset=0, len=500) and (t=1, offset=500, len=500). -/
def c4_xmit_rpc : Rpc :=
  { name := "client", send_data := [(0, 0, 500), (1, 500, 500)] }

/-- The receiver side of the C4 scenario: GRO data samples (t=2, offset=0)
and (t=3, offset=500), GRO core 2, no resends. -/
def c4_recv_rpc : Rpc :=
  { name := "server", gro_data := [(2, 0), (3, 500)], gro_core := some 2 }

/-- The rpcs table of the C4 scenario: the pair 2 (client) / 3 = 2 XOR 1. -/
def c4_rpcs : List (ℕ × Rpc) := [(2, c4_xmit_rpc), (3, c4_recv_rpc)]

/-- The end-to-end delays carried by the recv events, in stream order. -/
def recv_delays (evs : List NetEvent) : List ℚ :=
  evs.filterMap (fun e => match e.kind with
    | EvKind.recv => some e.delay
    | EvKind.xmit => none)

set_option maxRecDepth 100000 in
set_option maxHeartbeats 1000000 in
/-- C4: on the sender packets [(0,0,500),(1,500,500)] paired with receiver
GRO samples [(2,0),(3,500)] and no resends or retransmits, the network
correlation emits exactly two recv events whose delays are 2 (= 2 - 0) and
2 (= 3 - 1): receive time minus matched transmit time. -/
theorem c4_net_delays :
    (lookupA (collect_events 100000 c4_rpcs) "server").map recv_delays
      = some [2, 2] := by
  norm_num [collect_events, collect_step, c4_rpcs, c4_xmit_rpc, c4_recv_rpc,
    pairEvents, netRecvLoop, netWhile, sortByLe, insertLe, ensureKey,
    appendAt, lookupA, updateA, keysOf, recv_delays, List.filterMap,
    List.foldl]

/-- Every xmit event in a node's stream is matched by a recv event on the
same core (the safety property behind C10). -/
def XRecv (evs : List NetEvent) : Prop :=
  ∀ x ∈ evs, x.kind = EvKind.xmit →
    ∃ r ∈ evs, r.kind = EvKind.recv ∧ r.core = x.core

theorem XRecv_nil : XRecv [] := by
  intro x hx
  exact absurd hx (List.not_mem_nil x)

theorem XRecv_append {a b : List NetEvent} (ha : XRecv a) (hb : XRecv b) :
    XRecv (a ++ b) := by
  intro x hx hk
  rcases List.mem_append.mp hx with h | h
  · obtain ⟨r, hr, hrk⟩ := ha x h hk
    exact ⟨r, List.mem_append.mpr (Or.inl hr), hrk⟩
  · obtain ⟨r, hr, hrk⟩ := hb x h hk
    exact ⟨r, List.mem_append.mpr (Or.inr hr), hrk⟩

theorem XRecv_sort (le : NetEvent → NetEvent → Bool) {l : List NetEvent}
    (h : XRecv l) : XRecv (sortByLe le l) := by
  intro x hx hk
  obtain ⟨r, hr, hrk⟩ := h x ((mem_sortByLe le x l).mp hx) hk
  exact ⟨r, (mem_sortByLe le r l).mpr hr, hrk⟩

theorem netWhile_props (core : ℕ) (ro : ℤ) (rest : List (ℚ × ℤ × ℤ)) :
    ∀ (cur : ℚ × ℤ × ℤ) (xb : ℤ),
    (∀ e ∈ (netWhile core ro cur rest xb).em,
        e.kind = EvKind.xmit ∧ e.core = core)
    ∧ ((netWhile core ro cur rest xb).em ≠ [] → xb ≠ 0)
    ∧ ((netWhile core ro cur rest xb).xb = xb
        ∨ (netWhile core ro cur rest xb).xb = 0) := by
  induction rest with
  | nil =>
    intro cur xb
    by_cases h : ro ≥ cur.2.1 + cur.2.2
    · by_cases hxb : xb = 0
      · subst hxb
        simp [netWhile, h]
      · simp [netWhile, h, hxb]
    · simp [netWhile, h]
  | cons nxt rest2 ih =>
    intro cur xb
    have hw := ih nxt 0
    by_cases h : ro ≥ cur.2.1 + cur.2.2
    · by_cases hxb : xb = 0
      · subst hxb
        refine ⟨?_, ?_, ?_⟩
        · intro e he
          simp only [netWhile, if_pos h] at he
          simp at he
          exact hw.1 e he
        · intro hne
          simp only [netWhile, if_pos h] at hne
          simp at hne
          exact absurd rfl (hw.2.1 hne)
        · right
          simp only [netWhile, if_pos h]
          rcases hw.2.2 with h2 | h2 <;> simpa using h2
      · refine ⟨?_, ?_, ?_⟩
        · intro e he
          simp only [netWhile, if_pos h] at he
          simp [hxb] at he
          rcases he with he | he
          · simp [he]
          · exact hw.1 e he
        · intro _
          exact hxb
        · right
          simp only [netWhile, if_pos h]
          rcases hw.2.2 with h2 | h2 <;> simpa using h2
    · simp [netWhile, h]

theorem netRecvLoop_core_all (core : ℕ) (maxData xmitEnd : ℤ)
    (rs ks : List ℤ) :
    ∀ (recvs : List (ℚ × ℤ)) (cur : ℚ × ℤ × ℤ) (rest : List (ℚ × ℤ × ℤ))
      (xb : ℤ) (e : NetEvent),
    e ∈ netRecvLoop core maxData xmitEnd rs ks cur rest xb recvs →
    e.core = core := by
  intro recvs
  induction recvs with
  | nil =>
    intro cur rest xb e he
    simp only [netRecvLoop] at he
    by_cases hxb : xb = 0
    · simp [hxb] at he
    · simp [hxb] at he
      simp [he]
  | cons hd rrest ih =>
    intro cur rest xb e he
    obtain ⟨rt, ro⟩ := hd
    simp only [netRecvLoop] at he
    by_cases h1 : ro < cur.2.1
    · rw [if_pos h1] at he
      exact ih cur rest xb e he
    · rw [if_neg h1] at he
      by_cases h2 : (netWhile core ro cur rest xb).ranOff
      · rw [if_pos h2] at he
        rcases List.mem_append.mp he with h3 | h3
        · exact ((netWhile_props core ro rest cur xb).1 e h3).2
        · by_cases h4 : (netWhile core ro cur rest xb).xb = 0
          · simp [h4] at h3
          · simp [h4] at h3
            simp [h3]
      · rw [if_neg h2] at he
        by_cases h3 : ro ∈ rs ∨ ro ∈ ks
        · rw [if_pos h3] at he
          rcases List.mem_append.mp he with h4 | h4
          · exact ((netWhile_props core ro rest cur xb).1 e h4).2
          · exact ih _ _ _ e h4
        · rw [if_neg h3] at he
          rcases List.mem_append.mp he with h4 | h4
          · exact ((netWhile_props core ro rest cur xb).1 e h4).2
          · rcases List.mem_cons.mp h4 with h5 | h5
            · simp [h5]
            · exact ih _ _ _ e h5

theorem netRecvLoop_hasRecv (core : ℕ) (maxData xmitEnd : ℤ)
    (rs ks : List ℤ) :
    ∀ (recvs : List (ℚ × ℤ)) (cur : ℚ × ℤ × ℤ) (rest : List (ℚ × ℤ × ℤ))
      (xb : ℤ),
    (∃ x ∈ netRecvLoop core maxData xmitEnd rs ks cur rest xb recvs,
        x.kind = EvKind.xmit) →
    xb ≠ 0 ∨ ∃ r ∈ netRecvLoop core maxData xmitEnd rs ks cur rest xb recvs,
        r.kind = EvKind.recv := by
  intro recvs
  induction recvs with
  | nil =>
    intro cur rest xb hx
    by_cases hxb : xb = 0
    · obtain ⟨x, hx1, _⟩ := hx
      simp [netRecvLoop, hxb] at hx1
    · exact Or.inl hxb
  | cons hd rrest ih =>
    intro cur rest xb hx
    obtain ⟨rt, ro⟩ := hd
    obtain ⟨x, hxm, hxk⟩ := hx
    simp only [netRecvLoop] at hxm ⊢
    have hwp := netWhile_props core ro rest cur xb
    by_cases h1 : ro < cur.2.1
    · rw [if_pos h1] at hxm ⊢
      exact ih cur rest xb ⟨x, hxm, hxk⟩
    · rw [if_neg h1] at hxm ⊢
      by_cases h2 : (netWhile core ro cur rest xb).ranOff
      · rw [if_pos h2] at hxm ⊢
        left
        rcases List.mem_append.mp hxm with h3 | h3
        · exact hwp.2.1 (List.ne_nil_of_mem h3)
        · by_cases h4 : (netWhile core ro cur rest xb).xb = 0
          · simp [h4] at h3
          · rcases hwp.2.2 with h5 | h5
            · rw [h5] at h4
              exact h4
            · exact absurd h5 h4
      · rw [if_neg h2] at hxm ⊢
        by_cases h3 : ro ∈ rs ∨ ro ∈ ks
        · rw [if_pos h3] at hxm ⊢
          rcases List.mem_append.mp hxm with h4 | h4
          · exact Or.inl (hwp.2.1 (List.ne_nil_of_mem h4))
          · rcases ih _ _ _ ⟨x, h4, hxk⟩ with h5 | ⟨r, hr, hrk⟩
            · left
              rcases hwp.2.2 with h6 | h6
              · rw [h6] at h5
                exact h5
              · exact absurd h6 h5
            · exact Or.inr ⟨r, List.mem_append.mpr (Or.inr hr), hrk⟩
        · rw [if_neg h3] at hxm ⊢
          right
          exact ⟨_, List.mem_append.mpr (Or.inr (List.mem_cons_self _ _)), rfl⟩

theorem netRecvLoop_XRecv (core : ℕ) (maxData xmitEnd : ℤ) (rs ks : List ℤ)
    (cur : ℚ × ℤ × ℤ) (rest : List (ℚ × ℤ × ℤ)) (recvs : List (ℚ × ℤ)) :
    XRecv (netRecvLoop core maxData xmitEnd rs ks cur rest 0 recvs) := by
  intro x hx hxk
  rcases netRecvLoop_hasRecv core maxData xmitEnd rs ks recvs cur rest 0
      ⟨x, hx, hxk⟩ with h | ⟨r, hr, hrk⟩
  · exact absurd rfl h
  · refine ⟨r, hr, hrk, ?_⟩
    rw [netRecvLoop_core_all core maxData xmitEnd rs ks recvs cur rest 0 r hr,
      netRecvLoop_core_all core maxData xmitEnd rs ks recvs cur rest 0 x hx]

theorem pairEvents_XRecv (maxData : ℤ) (xr rr : Rpc) (evs : List NetEvent)
    (h : pairEvents maxData xr rr = some evs) : XRecv evs := by
  simp only [pairEvents] at h
  cases hg : rr.gro_core with
  | none =>
    simp only [hg] at h
    exact absurd h (by simp)
  | some core =>
    simp only [hg] at h
    cases hx : (match (sortByLe (fun a b => decide (a.2.1 ≤ b.2.1))
          xr.send_data).getLast? with
      | some lst => some (lst.2.1 + lst.2.2)
      | none =>
        match xr.out_length with
        | some l => some l
        | none => rr.in_length) with
    | none =>
      simp only [hx] at h
      exact absurd h (by simp)
    | some xmitEnd =>
      simp only [hx] at h
      cases hpk : sortByLe (fun a b => decide (a.2.1 ≤ b.2.1)) xr.send_data
        with
      | nil =>
        simp only [hpk, Option.some.injEq] at h
        rw [← h]
        exact netRecvLoop_XRecv _ _ _ _ _ _ _ _
      | cons c0 rest0 =>
        simp only [hpk, Option.some.injEq] at h
        rw [← h]
        exact netRecvLoop_XRecv _ _ _ _ _ _ _ _

theorem mem_updateA {α β : Type} [DecidableEq α] (m : List (α × β)) (k : α)
    (v : β) (q : α × β) (h : q ∈ updateA m k v) : q ∈ m ∨ q = (k, v) := by
  induction m with
  | nil =>
    simp [updateA] at h
    exact Or.inr h
  | cons hd tl ih =>
    by_cases hk : hd.1 = k
    · rw [updateA, if_pos hk] at h
      rcases List.mem_cons.mp h with h1 | h1
      · right
        rw [h1, hk]
      · exact Or.inl (List.mem_cons_of_mem _ h1)
    · rw [updateA, if_neg hk] at h
      rcases List.mem_cons.mp h with h1 | h1
      · exact Or.inl (h1 ▸ List.mem_cons_self _ _)
      · rcases ih h1 with h2 | h2
        · exact Or.inl (List.mem_cons_of_mem _ h2)
        · exact Or.inr h2

theorem lookupA_mem {α β : Type} [DecidableEq α] (m : List (α × β)) (k : α)
    (v : β) (h : lookupA m k = some v) : (k, v) ∈ m := by
  induction m with
  | nil => simp [lookupA] at h
  | cons hd tl ih =>
    obtain ⟨a, b⟩ := hd
    by_cases hk : a = k
    · subst hk
      rw [lookupA, if_pos rfl] at h
      cases h
      exact List.mem_cons_self _ _
    · rw [lookupA, if_neg hk] at h
      exact List.mem_cons_of_mem _ (ih h)

theorem mem_keysOf_updateA {α β : Type} [DecidableEq α] (m : List (α × β))
    (k a : α) (v : β) (h : a ∈ keysOf (updateA m k v)) :
    a ∈ keysOf m ∨ a = k := by
  induction m with
  | nil =>
    simp [updateA, keysOf] at h
    exact Or.inr h
  | cons hd tl ih =>
    by_cases hk : hd.1 = k
    · rw [updateA, if_pos hk] at h
      simp [keysOf] at h ⊢
      rcases h with h1 | h1
      · exact Or.inl (Or.inl h1)
      · exact Or.inl (Or.inr h1)
    · rw [updateA, if_neg hk] at h
      simp [keysOf] at h ⊢
      rcases h with h1 | h1
      · exact Or.inl (Or.inl h1)
      · rcases ih (by simpa [keysOf] using h1) with h2 | h2
        · exact Or.inl (Or.inr (by simpa [keysOf] using h2))
        · exact Or.inr h2

theorem nodup_keysOf_updateA {α β : Type} [DecidableEq α] (m : List (α × β))
    (k : α) (v : β) (h : (keysOf m).Nodup) :
    (keysOf (updateA m k v)).Nodup := by
  induction m with
  | nil => simp [updateA, keysOf]
  | cons hd tl ih =>
    by_cases hk : hd.1 = k
    · rw [updateA, if_pos hk]
      simpa [keysOf] using h
    · rw [updateA, if_neg hk]
      simp only [keysOf, List.map_cons, List.nodup_cons] at h ⊢
      refine ⟨?_, ih h.2⟩
      intro hmem
      rcases mem_keysOf_updateA tl k hd.1 v hmem with h1 | h1
      · exact h.1 (by simpa [keysOf] using h1)
      · exact hk h1

theorem lookupA_of_mem_nodup {α β : Type} [DecidableEq α]
    (m : List (α × β)) (q : α × β) (hmem : q ∈ m)
    (hnd : (keysOf m).Nodup) : lookupA m q.1 = some q.2 := by
  induction m with
  | nil => simp at hmem
  | cons hd tl ih =>
    simp only [keysOf, List.map_cons, List.nodup_cons] at hnd
    rcases List.mem_cons.mp hmem with h1 | h1
    · subst h1
      rw [lookupA, if_pos rfl]
    · by_cases hk : hd.1 = q.1
      · exfalso
        apply hnd.1
        rw [hk]
        exact List.mem_map.mpr ⟨q, h1, rfl⟩
      · rw [lookupA, if_neg hk]
        exact ih h1 hnd.2

/-- receivers-table invariant: every node's (pre-sort) stream satisfies
XRecv. -/
theorem ensureKey_inv (m : List (String × List NetEvent)) (k : String)
    (h : ∀ r ∈ m, XRecv r.2) : ∀ r ∈ ensureKey m k, XRecv r.2 := by
  intro r hr
  rw [ensureKey] at hr
  split at hr
  · exact h r hr
  · rcases List.mem_append.mp hr with h1 | h1
    · exact h r h1
    · simp at h1
      rw [h1]
      exact XRecv_nil

theorem appendAt_inv (m : List (String × List NetEvent)) (k : String)
    (evs : List NetEvent) (hm : ∀ r ∈ m, XRecv r.2) (he : XRecv evs) :
    ∀ r ∈ appendAt m k evs, XRecv r.2 := by
  intro r hr
  rw [appendAt] at hr
  split at hr
  · rename_i cur hcur
    rcases mem_updateA _ _ _ _ hr with h1 | h1
    · exact hm r h1
    · rw [h1]
      exact XRecv_append (hm (k, cur) (lookupA_mem _ _ _ hcur)) he
  · rcases List.mem_append.mp hr with h1 | h1
    · exact hm r h1
    · simp at h1
      rw [h1]
      exact he

theorem collect_step_inv (maxData : ℤ) (rpcsT : List (ℕ × Rpc))
    (acc : List (String × List NetEvent)) (p : ℕ × Rpc)
    (h : ∀ r ∈ acc, XRecv r.2) :
    ∀ r ∈ collect_step maxData rpcsT acc p, XRecv r.2 := by
  rw [collect_step]
  split
  · exact h
  · rename_i rrpc heq
    split
    · exact ensureKey_inv _ _ h
    · rename_i evs hevs
      exact appendAt_inv _ _ _ (ensureKey_inv _ _ h)
        (pairEvents_XRecv _ _ _ _ hevs)

theorem collect_events_XRecv (maxData : ℤ) (rpcsT : List (ℕ × Rpc)) :
    ∀ p ∈ collect_events maxData rpcsT, XRecv p.2 := by
  have hfold : ∀ (l : List (ℕ × Rpc)) (acc : List (String × List NetEvent)),
      (∀ r ∈ acc, XRecv r.2) →
      ∀ r ∈ l.foldl (collect_step maxData rpcsT) acc, XRecv r.2 := by
    intro l
    induction l with
    | nil =>
      intro acc h
      simpa using h
    | cons hd tl ih =>
      intro acc h
      rw [List.foldl_cons]
      exact ih _ (collect_step_inv maxData rpcsT acc hd h)
  intro p hp
  rw [collect_events] at hp
  obtain ⟨q, hq, hfq⟩ := List.mem_map.mp hp
  have hx := hfold rpcsT [] (by simp) q hq
  rw [← hfq]
  exact XRecv_sort _ hx

/-- Number of recv events on a given core. -/
def countRecv (evs : List NetEvent) (c : ℕ) : ℕ :=
  (evs.filter (fun e => decide (e.kind = EvKind.recv ∧ e.core = c))).length

/-- The number of packets for the core looked up in a stats table (0 when
absent, as the defaultdict default). -/
def npAt (m : List (ℕ × CoreStats)) (c : ℕ) : ℕ :=
  match lookupA m c with
  | some cs => cs.num_packets
  | none => 0

theorem step_core_np (cs : CoreStats) (e : NetEvent) :
    (step_core cs e).num_packets
      = cs.num_packets + (if e.kind = EvKind.recv then 1 else 0) := by
  cases hk : e.kind <;>
    simp only [step_core, hk] <;>
    split_ifs <;>
    simp_all

theorem stats_fold_np (evs : List NetEvent) :
    ∀ (m : List (ℕ × CoreStats)) (c : ℕ) (cs : CoreStats),
    lookupA (stats_fold m evs) c = some cs →
    cs.num_packets = npAt m c + countRecv evs c := by
  induction evs with
  | nil =>
    intro m c cs h
    simp [stats_fold] at h
    simp [npAt, h, countRecv]
  | cons e rest ih =>
    intro m c cs h
    rw [stats_fold] at h
    have h2 := ih _ c cs h
    by_cases hc : c = e.core
    · subst hc
      rw [h2]
      simp only [npAt, lookupA_updateA_self]
      rw [step_core_np]
      cases hl : lookupA m e.core <;>
        cases hk : e.kind <;>
          simp [hl, hk, countRecv, List.filter_cons] <;>
          omega
    · rw [h2]
      simp only [npAt, lookupA_updateA_ne _ _ _ _ hc]
      have hpred : ¬ (e.kind = EvKind.recv ∧ e.core = c) := fun hcon =>
        hc hcon.2.symm
      simp [countRecv, List.filter_cons, hpred]

theorem stats_fold_keys (evs : List NetEvent) :
    ∀ (m : List (ℕ × CoreStats)) (c : ℕ),
    (lookupA (stats_fold m evs) c).isSome →
    (lookupA m c).isSome ∨ ∃ e ∈ evs, e.core = c := by
  induction evs with
  | nil =>
    intro m c h
    simp [stats_fold] at h
    exact Or.inl (by simp [h])
  | cons e rest ih =>
    intro m c h
    rw [stats_fold] at h
    rcases ih _ c h with h1 | ⟨e2, he2, hc2⟩
    · by_cases hc : c = e.core
      · exact Or.inr ⟨e, List.mem_cons_self _ _, hc.symm⟩
      · rw [lookupA_updateA_ne _ _ _ _ hc] at h1
        exact Or.inl h1
    · exact Or.inr ⟨e2, List.mem_cons_of_mem _ he2, hc2⟩

theorem stats_fold_nodup (evs : List NetEvent) :
    ∀ m : List (ℕ × CoreStats), (keysOf m).Nodup →
    (keysOf (stats_fold m evs)).Nodup := by
  induction evs with
  | nil =>
    intro m h
    simpa [stats_fold] using h
  | cons e rest ih =>
    intro m h
    rw [stats_fold]
    exact ih _ (nodup_keysOf_updateA _ _ _ h)

theorem divide_all_isSome (elapsed : ℚ) :
    ∀ l : List (ℕ × CoreStats), (∀ q ∈ l, q.2.num_packets ≠ 0) →
    (divide_all elapsed l).isSome := by
  intro l
  induction l with
  | nil =>
    intro _
    simp [divide_all]
  | cons hd tl ih =>
    intro h
    obtain ⟨c, cs⟩ := hd
    rw [divide_all]
    rw [if_neg (h (c, cs) (List.mem_cons_self _ _))]
    have h2 := ih (fun q hq => h q (List.mem_cons_of_mem _ hq))
    cases hda : divide_all elapsed tl with
    | none =>
      rw [hda] at h2
      simp at h2
    | some r => simp

theorem countRecv_ne_zero (evs : List NetEvent) (c : ℕ) (r : NetEvent)
    (hr : r ∈ evs) (hk : r.kind = EvKind.recv) (hc : r.core = c) :
    countRecv evs c ≠ 0 := by
  intro h0
  have hmem : r ∈ evs.filter
      (fun e => decide (e.kind = EvKind.recv ∧ e.core = c)) :=
    List.mem_filter.mpr ⟨hr, by simp [hk, hc]⟩
  rw [countRecv, List.length_eq_zero] at h0
  rw [h0] at hmem
  exact absurd hmem (List.not_mem_nil r)

/-- C10: for every node stream produced by collect_events, the final
averaging pass of summarize_events never divides by zero: every core that
appears in the per-core table has num_packets at least 1, because a
synthetic xmit event for a core is only emitted after at least one matched
recv event accumulated bytes for that same core. (The division of
avg_backlog by the trace's elapsed time additionally requires a nonzero
elapsed time.) -/
theorem c10_core_average_safe (maxData : ℤ) (rpcsT : List (ℕ × Rpc))
    (elapsed : ℚ) (nm : String) (evs : List NetEvent)
    (hel : elapsed ≠ 0)
    (hmem : (nm, evs) ∈ collect_events maxData rpcsT) :
    (summarize_node elapsed evs).isSome := by
  have hxr : XRecv evs := collect_events_XRecv maxData rpcsT (nm, evs) hmem
  rw [summarize_node, if_neg hel]
  apply divide_all_isSome
  intro q hq
  have hnd : (keysOf (stats_fold [] evs)).Nodup :=
    stats_fold_nodup evs [] (by simp [keysOf])
  have hlk := lookupA_of_mem_nodup _ q hq hnd
  have hnp := stats_fold_np evs [] q.1 q.2 hlk
  have hkey := stats_fold_keys evs [] q.1 (by rw [hlk]; rfl)
  rcases hkey with h1 | ⟨e, he, hec⟩
  · simp [lookupA] at h1
  · have hnz : countRecv evs q.1 ≠ 0 := by
      cases hke : e.kind with
      | recv => exact countRecv_ne_zero evs q.1 e he hke hec
      | xmit =>
        obtain ⟨r, hr, hrk, hrc⟩ := hxr e he hke
        exact countRecv_ne_zero evs q.1 r hr hrk (by rw [hrc, hec])
    rw [hnp]
    simp [npAt, lookupA]
    exact hnz

/-- The event stream collect_events produces for node "server" in the C4
scenario (two xmit flushes and two matched recv events, all on core 2). -/
def c10_evs : List NetEvent :=
  [⟨0, EvKind.xmit, 500, 2, 0⟩, ⟨1, EvKind.xmit, 500, 2, 0⟩,
   ⟨2, EvKind.recv, 500, 2, 2⟩, ⟨3, EvKind.recv, 500, 2, 2⟩]

set_option maxRecDepth 100000 in
set_option maxHeartbeats 1000000 in
/-- C10 (witness): the summarize pass is defined (no division by zero) on
the concrete stream of the C4 scenario with elapsed time 10. -/
theorem c10_core_average_safe_witness :
    (summarize_node 10 c10_evs).isSome :=
  c10_core_average_safe 100000 c4_rpcs 10 "server" c10_evs (by norm_num)
    (by
      have hx1 : (2 : ℕ) ^^^ 1 = 3 := by decide
      have hx2 : (3 : ℕ) ^^^ 1 = 2 := by decide
      have hs : ¬ (("server" : String) = "client") := by decide
      norm_num [collect_events, collect_step, c4_rpcs, c4_xmit_rpc,
        c4_recv_rpc, pairEvents, netRecvLoop, netWhile, sortByLe, insertLe,
        ensureKey, appendAt, lookupA, updateA, keysOf, List.foldl, c10_evs,
        hx1, hx2, hs])

/-
AnalyzeTimeline (lines 1417-1558). Each phase table entry is a
(label, field, extractor) triple; __collect_stats walks the phases of one
RPC, keeping the start-phase time and the previous observed time, and
appends (t - start) and (t - prev) to the per-phase accumulators. The
client table's 'sent grant' extractor is lambda x : (print(x), x[0][0]),
which returns a (None, time) tuple; subtracting it raises TypeError. The
client_extra/server_extra tables use the same mechanism over scalar fields.
-/

/-- The value produced by a phase extractor: a plain time, or - for the
client 'sent grant' phase - the (None, time) tuple produced by the
debugging lambda. -/
inductive TVal where
  | num (t : ℚ)
  | tup (t : ℚ)
deriving DecidableEq

/-- The RPC-record fields that the phase tables select. -/
inductive PhaseField where
  | sendmsg
  | send_data
  | softirq_grant
  | gro_data
  | send_grant
  | recvmsg_done
  | copy_in_done
  | copy_out_start
  | copy_out_done
deriving DecidableEq

/-- The Python value stored under a phase field: a scalar time, a list of
(time, offset) pairs, or a list of (time, offset, extra) triples. -/
inductive FieldVal where
  | scalar (t : ℚ)
  | pairs (l : List (ℚ × ℤ))
  | triples (l : List (ℚ × ℤ × ℤ))
deriving DecidableEq

/-- Reading a phase's field from an RPC record (phase[1] in rpc): none
models an absent key; the list fields are always present. -/
def fieldVal (rpc : Rpc) : PhaseField → Option FieldVal
  | PhaseField.sendmsg => rpc.sendmsg.map FieldVal.scalar
  | PhaseField.send_data => some (FieldVal.triples rpc.send_data)
  | PhaseField.softirq_grant => some (FieldVal.pairs rpc.softirq_grant)
  | PhaseField.gro_data => some (FieldVal.pairs rpc.gro_data)
  | PhaseField.send_grant => some (FieldVal.triples rpc.send_grant)
  | PhaseField.recvmsg_done => rpc.recvmsg_done.map FieldVal.scalar
  | PhaseField.copy_in_done => rpc.copy_in_done.map FieldVal.scalar
  | PhaseField.copy_out_start => rpc.copy_out_start.map FieldVal.scalar
  | PhaseField.copy_out_done => rpc.copy_out_done.map FieldVal.scalar

/-- Python truthiness of the field value (if rpc_phase:): a float is truthy
unless it equals 0.0, a list unless it is empty. -/
def truthy : FieldVal → Bool
  | FieldVal.scalar t => decide (t ≠ 0)
  | FieldVal.pairs l => decide (l ≠ [])
  | FieldVal.triples l => decide (l ≠ [])

/-- The extraction lambdas appearing in the phase tables. -/
inductive Extractor where
  | scalar
  | firstTime
  | lastTime
  | firstTimePrint
deriving DecidableEq

/-- Applying an extractor to a field value. firstTimePrint is the client
'sent grant' lambda (print(x), x[0][0]): it returns the (None, time) tuple.
none models an IndexError (never reached under the truthiness guard). -/
def applyEx : Extractor → FieldVal → Option TVal
  | Extractor.scalar, FieldVal.scalar t => some (TVal.num t)
  | Extractor.firstTime, FieldVal.pairs ((t, _) :: _) => some (TVal.num t)
  | Extractor.firstTime, FieldVal.triples ((t, _, _) :: _) =>
    some (TVal.num t)
  | Extractor.lastTime, FieldVal.pairs l =>
    (l.getLast?).map (fun p => TVal.num p.1)
  | Extractor.lastTime, FieldVal.triples l =>
    (l.getLast?).map (fun p => TVal.num p.1)
  | Extractor.firstTimePrint, FieldVal.triples ((t, _, _) :: _) =>
    some (TVal.tup t)
  | _, _ => none

structure Phase where
  label : String
  field : PhaseField
  ex : Extractor

/-- The client_phases table (lines 1439-1448), including the debugging
lambda of the 'sent grant' entry. -/
def client_phases : List Phase := [
  ⟨"start", PhaseField.sendmsg, Extractor.scalar⟩,
  ⟨"first request packet sent", PhaseField.send_data, Extractor.firstTime⟩,
  ⟨"softirq gets first grant", PhaseField.softirq_grant,
    Extractor.firstTime⟩,
  ⟨"last request packet sent", PhaseField.send_data, Extractor.lastTime⟩,
  ⟨"gro gets first response packet", PhaseField.gro_data,
    Extractor.firstTime⟩,
  ⟨"sent grant", PhaseField.send_grant, Extractor.firstTimePrint⟩,
  ⟨"gro gets last response packet", PhaseField.gro_data,
    Extractor.lastTime⟩,
  ⟨"homa_recvmsg returning", PhaseField.recvmsg_done, Extractor.scalar⟩]

/-- The server_phases table (lines 1456-1465); its 'sent grant' extractor
is the plain lambda x : x[0][0]. -/
def server_phases : List Phase := [
  ⟨"start", PhaseField.gro_data, Extractor.firstTime⟩,
  ⟨"sent grant", PhaseField.send_grant, Extractor.firstTime⟩,
  ⟨"gro gets last request packet", PhaseField.gro_data, Extractor.lastTime⟩,
  ⟨"homa_recvmsg returning", PhaseField.recvmsg_done, Extractor.scalar⟩,
  ⟨"homa_sendmsg response", PhaseField.sendmsg, Extractor.scalar⟩,
  ⟨"first response packet sent", PhaseField.send_data, Extractor.firstTime⟩,
  ⟨"softirq gets first grant", PhaseField.softirq_grant,
    Extractor.firstTime⟩,
  ⟨"last response packet sent", PhaseField.send_data, Extractor.lastTime⟩]

/-- Python subtraction t - s as used in __collect_stats: defined only when
both operands are numbers; a tuple operand raises TypeError and an unbound
start/prev raises UnboundLocalError (both Except.error). -/
def subTV : TVal → Option TVal → Except Unit ℚ
  | TVal.num a, some (TVal.num b) => Except.ok (a - b)
  | _, _ => Except.error ()

/-- totals[i].append(x). -/
def appendNth : List (List ℚ) → ℕ → ℚ → List (List ℚ)
  | [], _, _ => []
  | s :: rest, 0, x => (s ++ [x]) :: rest
  | s :: rest, i + 1, x => s :: appendNth rest i x

/-- The while-padding loop of __collect_stats: extend the accumulator lists
to the number of phases. -/
def padTo (l : List (List ℚ)) (n : ℕ) : List (List ℚ) :=
  l ++ List.replicate (n - l.length) []

/-- The phase walk of AnalyzeTimeline.__collect_stats (lines 1529-1542),
carrying the index, the start-phase value and the previous observed value.
-/
def collect_stats_go (rpc : Rpc) :
    List Phase → ℕ → Option TVal → Option TVal → List (List ℚ) →
    List (List ℚ) → Except Unit (List (List ℚ) × List (List ℚ))
  | [], _, _, _, totals, deltas => Except.ok (totals, deltas)
  | ph :: rest, i, start, prev, totals, deltas =>
    match fieldVal rpc ph.field with
    | none => collect_stats_go rpc rest (i + 1) start prev totals deltas
    | some v =>
      if truthy v then
        match applyEx ph.ex v with
        | none => Except.error ()
        | some t =>
          let start2 := if i = 0 then some t else start
          let prev2 := if i = 0 then some t else prev
          match subTV t start2, subTV t prev2 with
          | Except.ok dt, Except.ok dp =>
            collect_stats_go rpc rest (i + 1) start2 (some t)
              (appendNth totals i dt) (appendNth deltas i dp)
          | _, _ => Except.error ()
      else collect_stats_go rpc rest (i + 1) start prev totals deltas

/-- AnalyzeTimeline.__collect_stats for one RPC. -/
def collect_stats (phases : List Phase) (rpc : Rpc)
    (totals deltas : List (List ℚ)) :
    Except Unit (List (List ℚ) × List (List ℚ)) :=
  collect_stats_go rpc phases 0 none none (padTo totals phases.length)
    (padTo deltas phases.length)

/-- Client minimum-completeness (lines 1486-1489): id even, and sendmsg and
recvmsg_done both present. -/
def client_eligible (id : ℕ) (rpc : Rpc) : Bool :=
  decide (id % 2 = 0) && rpc.sendmsg.isSome && rpc.recvmsg_done.isSome

/-- Server minimum-completeness (lines 1495-1499): id odd, first GRO data
sample at offset zero, at least one send_data entry. -/
def server_eligible (id : ℕ) (rpc : Rpc) : Bool :=
  decide (id % 2 = 1) &&
  (match rpc.gro_data with
   | [] => false
   | (_, off) :: _ => decide (off = 0)) &&
  decide (rpc.send_data ≠ [])

/-- A minimum-complete client RPC that sent a grant: sendmsg at 1,
recvmsg_done at 4, one request packet at 2, one response packet at 5/2,
one sent grant at 3. -/
def c2_rpc : Rpc :=
  { name := "n0", sendmsg := some 1, recvmsg_done := some 4,
    send_data := [(2, 0, 100)], gro_data := [(5/2, 0)],
    send_grant := [(3, 0, 7)] }

/-- The same RPC without the sent grant. -/
def c2_rpc_ok : Rpc :=
  { name := "n0", sendmsg := some 1, recvmsg_done := some 4,
    send_data := [(2, 0, 100)], gro_data := [(5/2, 0)], send_grant := [] }

/-- C2: the timeline analyzer fails on a minimum-complete client RPC whose
send_grant list is non-empty: the client 'sent grant' extractor is the
debugging lambda (print(x), x[0][0]), so t is a (None, time) tuple and
t - start raises TypeError (Except.error here) instead of accumulating the
phase times. On an otherwise identical RPC with no sent grant, the
analyzer computes, for each present and non-empty phase, the elapsed time
since the start phase and the delta from the previous observed phase,
exactly as the claim states. -/
theorem c2_timeline_sent_grant_crash :
    client_eligible 2 c2_rpc = true
    ∧ collect_stats client_phases c2_rpc [] [] = Except.error ()
    ∧ client_eligible 2 c2_rpc_ok = true
    ∧ collect_stats client_phases c2_rpc_ok [] []
        = Except.ok ([[0], [1], [], [1], [3/2], [], [3/2], [3]],
            [[0], [1], [], [0], [1/2], [], [0], [3/2]]) := by
  refine ⟨rfl, ?_, rfl, ?_⟩
  · norm_num [collect_stats, collect_stats_go, client_phases, c2_rpc,
      fieldVal, truthy, applyEx, subTV, padTo, appendNth, List.replicate]
  · norm_num [collect_stats, collect_stats_go, client_phases, c2_rpc_ok,
      fieldVal, truthy, applyEx, subTV, padTo, appendNth, List.replicate]
